import Mathlib

-- Verification development for the lang_chain_koa repository.
--
-- Part 1 models the conversational-memory strategies of src/utils/memory.ts.
-- Part 2 models the DashScope streaming WebSocket handler of
-- src/routes/dashscope/webSocket.ts as a small-step transition system over
-- per-connection state (one step per atomic segment of the async handlers,
-- i.e. per run-to-completion slice of the Node event loop).
--
-- External collaborators (the LangChain / DashScope LLM calls, JSON.parse on
-- LLM output) are modelled as oracle parameters: a call either returns a
-- value or fails, which is exactly the interface the source code consumes.

-- ---------------------------------------------------------------------------
-- Shared JavaScript string helpers
-- ---------------------------------------------------------------------------

/-- Whitespace recognised by the model of JavaScript String.prototype.trim
(the source only ever trims user/parameter strings; ASCII whitespace
suffices for the embedded inputs). -/
def isJsSpace (c : Char) : Bool :=
  c = ' ' || c = '\t' || c = '\n' || c = '\r'

/-- Model of JavaScript String.prototype.trim: drop leading and trailing
whitespace. -/
def jsTrim (s : String) : String :=
  String.mk (((s.toList.dropWhile isJsSpace).reverse.dropWhile isJsSpace).reverse)

-- ---------------------------------------------------------------------------
-- Part 1: memory strategies (src/utils/memory.ts)
-- ---------------------------------------------------------------------------

/-- Role of a stored chat message (LangChain HumanMessage / AIMessage). -/
inductive MsgRole where
  | human
  | ai
deriving DecidableEq

/-- One stored chat message, as kept by InMemoryChatMessageHistory. -/
structure Msg where
  role : MsgRole
  content : String
deriving DecidableEq

/-- LangChain message type tag, as returned by BaseMessage._getType(). -/
def msgTypeName : MsgRole → String
  | MsgRole.human => "human"
  | MsgRole.ai => "ai"

/-- Model of `messages.length > limit ? messages.slice(-limit) : messages`
(the read path shared by ConversationBufferWindowMemory.getMessages and
ConversationSummaryBufferMemory.getContext).  JavaScript `slice(-limit)`
with `limit = 0` is `slice(0)`, i.e. the whole array; with `0 < limit <
length` it is the last `limit` elements. -/
def sliceLastJs {α : Type} (limit : Nat) (xs : List α) : List α :=
  if limit < xs.length then
    (if limit = 0 then xs else xs.drop (xs.length - limit))
  else xs

-- 2. ConversationBufferWindowMemory (src/utils/memory.ts lines 42-69)

/-- ConversationBufferWindowMemory: window parameter `k` plus the full
chat history kept by its InMemoryChatMessageHistory. -/
structure ConversationBufferWindowMemory where
  k : Nat
  chatHistory : List Msg
deriving DecidableEq

/-- addUserMessage: append a HumanMessage to the chat history. -/
def ConversationBufferWindowMemory.addUserMessage
    (m : ConversationBufferWindowMemory) (content : String) :
    ConversationBufferWindowMemory :=
  { m with chatHistory := m.chatHistory ++ [⟨MsgRole.human, content⟩] }

/-- addAiMessage: append an AIMessage to the chat history. -/
def ConversationBufferWindowMemory.addAiMessage
    (m : ConversationBufferWindowMemory) (content : String) :
    ConversationBufferWindowMemory :=
  { m with chatHistory := m.chatHistory ++ [⟨MsgRole.ai, content⟩] }

/-- getMessages: `const limit = this.k * 2; return messages.length > limit ?
messages.slice(-limit) : messages`. -/
def ConversationBufferWindowMemory.getMessages
    (m : ConversationBufferWindowMemory) : List Msg :=
  sliceLastJs (m.k * 2) m.chatHistory

/-- Run a sequence of writes against a window memory, each write dispatched
to addUserMessage or addAiMessage according to its role. -/
def ConversationBufferWindowMemory.applyWrites
    (m : ConversationBufferWindowMemory) : List Msg → ConversationBufferWindowMemory
  | [] => m
  | w :: ws =>
    ConversationBufferWindowMemory.applyWrites
      (match w.role with
       | MsgRole.human => m.addUserMessage w.content
       | MsgRole.ai => m.addAiMessage w.content) ws

-- 3. ConversationSummaryMemory (src/utils/memory.ts lines 75-107)

/-- ConversationSummaryMemory: a rolling summary string. -/
structure ConversationSummaryMemory where
  summary : String
deriving DecidableEq

/-- getSystemMessageContent: `this.summary ? 这是之前的对话摘要：... : ''`. -/
def ConversationSummaryMemory.getSystemMessageContent
    (m : ConversationSummaryMemory) : String :=
  if m.summary ≠ "" then "这是之前的对话摘要：" ++ m.summary else ""

/-- addAiMessage: invoke the summarisation chain on
`(this.summary || 无, lastUserMessage, lastAiMessage)` and assign the result
to `this.summary`.  `chainInvoke` is the oracle for the remote LLM call
(`prompt.pipe(this.llm).pipe(new StringOutputParser()).invoke`): it either
returns the new summary or fails.  The method has no try/catch, so a failed
invocation leaves the assignment unexecuted and the rejection propagates to
the caller; the second component is the escaped exception, if any. -/
def ConversationSummaryMemory.addAiMessage
    (m : ConversationSummaryMemory) (lastUserMessage lastAiMessage : String)
    (chainInvoke : String → String → String → Except String String) :
    ConversationSummaryMemory × Option String :=
  match chainInvoke (if m.summary = "" then "无" else m.summary)
      lastUserMessage lastAiMessage with
  | Except.ok newSummary => (⟨newSummary⟩, none)
  | Except.error e => (m, some e)

-- 4. ConversationSummaryBufferMemory (src/utils/memory.ts lines 114-163)

/-- ConversationSummaryBufferMemory: summary string, window parameter `k`,
and the full raw chat history. -/
structure ConversationSummaryBufferMemory where
  summary : String
  k : Nat
  chatHistory : List Msg
deriving DecidableEq

/-- Text assembled by updateSummary from the folded messages:
`oldMessages.map(m => type: content).join('\n')`. -/
def renderOldMessages (oldMessages : List Msg) : String :=
  String.intercalate "\n"
    (oldMessages.map (fun m => msgTypeName m.role ++ ": " ++ m.content))

/-- getContext: the summary together with
`messages.length > limit ? messages.slice(-limit) : messages` for
`limit = k * 2`. -/
def ConversationSummaryBufferMemory.getContext
    (m : ConversationSummaryBufferMemory) : String × List Msg :=
  (m.summary, sliceLastJs (m.k * 2) m.chatHistory)

/-- updateSummary: replace the summary by the chain invocation on
`(this.summary || 无, textToSummarize)`.  `chainInvoke` is the oracle for
the remote summarisation call (success path; C9 concerns the fold shape,
not upstream failure). -/
def ConversationSummaryBufferMemory.updateSummary
    (m : ConversationSummaryBufferMemory) (oldMessages : List Msg)
    (chainInvoke : String → String → String) :
    ConversationSummaryBufferMemory :=
  { m with
    summary := chainInvoke (if m.summary = "" then "无" else m.summary)
      (renderOldMessages oldMessages) }

/-- saveContext: append the user and AI turns, then if
`messages.length > (k + 2) * 2` fold `messages.slice(0, messages.length -
k * 2)` into the summary via updateSummary. -/
def ConversationSummaryBufferMemory.saveContext
    (m : ConversationSummaryBufferMemory) (userContent aiContent : String)
    (chainInvoke : String → String → String) :
    ConversationSummaryBufferMemory :=
  let m1 : ConversationSummaryBufferMemory :=
    { m with chatHistory :=
        m.chatHistory ++ [⟨MsgRole.human, userContent⟩, ⟨MsgRole.ai, aiContent⟩] }
  if m1.chatHistory.length > (m1.k + 2) * 2 then
    m1.updateSummary (m1.chatHistory.take (m1.chatHistory.length - m1.k * 2))
      chainInvoke
  else m1

/-- Run a sequence of saveContext writes (user/assistant turn pairs). -/
def ConversationSummaryBufferMemory.applySaves
    (m : ConversationSummaryBufferMemory) (chainInvoke : String → String → String) :
    List (String × String) → ConversationSummaryBufferMemory
  | [] => m
  | (u, a) :: ps =>
    ConversationSummaryBufferMemory.applySaves (m.saveContext u a chainInvoke)
      chainInvoke ps

/-- The raw turns appended to storage by a sequence of saveContext writes. -/
def turnsOfPairs : List (String × String) → List Msg
  | [] => []
  | (u, a) :: ps => ⟨MsgRole.human, u⟩ :: ⟨MsgRole.ai, a⟩ :: turnsOfPairs ps

-- 5. EntityMemory (src/utils/memory.ts lines 169-207)

/-- EntityMemory: the entity table, a JavaScript object mapping entity name
to description.  Modelled as an association list in insertion order with
unique keys (JSON.parse and object spread never produce duplicate keys). -/
structure EntityMemory where
  entities : List (String × String)
deriving DecidableEq

/-- Model of the JavaScript object spread `{ ...old, ...nw }`: keys of `old`
keep their position with values overridden by `nw` where present; keys of
`nw` not present in `old` are appended in order. -/
def jsSpreadMerge (old nw : List (String × String)) : List (String × String) :=
  old.map (fun p => (p.1, (nw.lookup p.1).getD p.2)) ++
    nw.filter (fun p => (old.lookup p.1).isNone)

/-- saveContext: the extraction chain plus fence-stripping plus JSON.parse
is the oracle `extraction` — it either yields the parsed entity object or
fails (chain rejection or JSON.parse throw).  On success the result is
spread-merged into the table (`this.entities = { ...this.entities,
...newEntities }`); the whole body is wrapped in try/catch whose handler
only logs, so a failure leaves the table unchanged and nothing propagates
(the second component, the escaped exception, is always `none`). -/
def EntityMemory.saveContext (m : EntityMemory)
    (extraction : Except String (List (String × String))) :
    EntityMemory × Option String :=
  match extraction with
  | Except.ok newEntities => (⟨jsSpreadMerge m.entities newEntities⟩, none)
  | Except.error _ => (m, none)

-- ---------------------------------------------------------------------------
-- Part 1 helper lemmas
-- ---------------------------------------------------------------------------

theorem ConversationBufferWindowMemory.applyWrites_chatHistory
    (ws : List Msg) : ∀ m : ConversationBufferWindowMemory,
    (m.applyWrites ws).chatHistory = m.chatHistory ++ ws := by
  induction ws with
  | nil => intro m; simp [ConversationBufferWindowMemory.applyWrites]
  | cons w ws ih =>
    intro m
    cases hw : w.role with
    | human =>
      have hwe : (⟨MsgRole.human, w.content⟩ : Msg) = w := by
        cases w; simp_all
      simp [ConversationBufferWindowMemory.applyWrites, hw, ih,
        ConversationBufferWindowMemory.addUserMessage, hwe]
    | ai =>
      have hwe : (⟨MsgRole.ai, w.content⟩ : Msg) = w := by
        cases w; simp_all
      simp [ConversationBufferWindowMemory.applyWrites, hw, ih,
        ConversationBufferWindowMemory.addAiMessage, hwe]

theorem ConversationBufferWindowMemory.applyWrites_k
    (ws : List Msg) : ∀ m : ConversationBufferWindowMemory,
    (m.applyWrites ws).k = m.k := by
  induction ws with
  | nil => intro m; simp [ConversationBufferWindowMemory.applyWrites]
  | cons w ws ih =>
    intro m
    cases hw : w.role <;>
      simp [ConversationBufferWindowMemory.applyWrites, hw, ih,
        ConversationBufferWindowMemory.addUserMessage,
        ConversationBufferWindowMemory.addAiMessage]

/-- For a positive window limit, the JavaScript slice read equals dropping
all but the last `min length limit` elements. -/
theorem sliceLastJs_pos {α : Type} (limit : Nat) (hl : 0 < limit)
    (xs : List α) :
    sliceLastJs limit xs = xs.drop (xs.length - min xs.length limit) := by
  unfold sliceLastJs
  by_cases h : limit < xs.length
  · have hmin : min xs.length limit = limit := by omega
    have hne : limit ≠ 0 := by omega
    simp [h, hne, hmin]
  · have hmin : min xs.length limit = xs.length := by omega
    simp [h, hmin]

-- ---------------------------------------------------------------------------
-- Part 1 claim theorems: C2, C3, C9, C7, C8
-- ---------------------------------------------------------------------------

/-- C2 counterexample: the claim fails at k = 0.  With
`ConversationBufferWindowMemory(0)` the read limit is `0`, and because
JavaScript `slice(-0)` is `slice(0)`, getMessages returns the entire
history: after one user and one assistant write it returns 2 messages,
exceeding the claimed bound of 2·k = 0 messages. -/
theorem C2_window_zero_counterexample :
    (((ConversationBufferWindowMemory.mk 0 []).addUserMessage "我是小红").addAiMessage
        "你好小红").getMessages.length = 2 ∧
    ¬ ((((ConversationBufferWindowMemory.mk 0 []).addUserMessage "我是小红").addAiMessage
        "你好小红").getMessages.length ≤
      2 * (((ConversationBufferWindowMemory.mk 0 []).addUserMessage "我是小红").addAiMessage
        "你好小红").k) := by
  decide

/-- C2 (amended to k ≥ 1): for every Window(k) strategy with k ≥ 1, after
any sequence of user/assistant writes, getMessages returns exactly the most
recently written messages in their original order — the final
`min (total, 2·k)` of them — and never more than 2·k messages. -/
theorem C2_window_invariant (k : Nat) (hk : 1 ≤ k) (ws : List Msg) :
    ((ConversationBufferWindowMemory.mk k []).applyWrites ws).getMessages =
      ws.drop (ws.length - min ws.length (2 * k)) ∧
    ((ConversationBufferWindowMemory.mk k []).applyWrites ws).getMessages.length ≤
      2 * k := by
  have hh := ConversationBufferWindowMemory.applyWrites_chatHistory ws
    (ConversationBufferWindowMemory.mk k [])
  have hkk := ConversationBufferWindowMemory.applyWrites_k ws
    (ConversationBufferWindowMemory.mk k [])
  simp only [ConversationBufferWindowMemory.getMessages, hh, hkk] at *
  have hpos : 0 < k * 2 := by omega
  rw [show ((ConversationBufferWindowMemory.mk k []).chatHistory ++ ws) = ws by simp]
  rw [sliceLastJs_pos (k * 2) hpos ws]
  constructor
  · rw [show k * 2 = 2 * k by omega]
  · rw [List.length_drop]
    omega

/-- C2 witness: a concrete Window(1) run — three writes, read returns the
last two messages. -/
theorem C2_window_invariant_witness :
    (1 ≤ 1) ∧
    (((ConversationBufferWindowMemory.mk 1 []).applyWrites
        [⟨MsgRole.human, "我是小红"⟩, ⟨MsgRole.ai, "你好小红"⟩,
         ⟨MsgRole.human, "我喜欢吃苹果"⟩]).getMessages =
      [⟨MsgRole.human, "我是小红"⟩, ⟨MsgRole.ai, "你好小红"⟩,
         ⟨MsgRole.human, "我喜欢吃苹果"⟩].drop
        ([⟨MsgRole.human, "我是小红"⟩, ⟨MsgRole.ai, "你好小红"⟩,
         (⟨MsgRole.human, "我喜欢吃苹果"⟩ : Msg)].length -
          min [⟨MsgRole.human, "我是小红"⟩, ⟨MsgRole.ai, "你好小红"⟩,
         (⟨MsgRole.human, "我喜欢吃苹果"⟩ : Msg)].length (2 * 1)) ∧
    ((ConversationBufferWindowMemory.mk 1 []).applyWrites
        [⟨MsgRole.human, "我是小红"⟩, ⟨MsgRole.ai, "你好小红"⟩,
         ⟨MsgRole.human, "我喜欢吃苹果"⟩]).getMessages.length ≤ 2 * 1) :=
  ⟨by decide,
   C2_window_invariant 1 (by decide)
     [⟨MsgRole.human, "我是小红"⟩, ⟨MsgRole.ai, "你好小红"⟩,
      ⟨MsgRole.human, "我喜欢吃苹果"⟩]⟩

/-- C3 counterexample: the claim asserts that no exception escapes past the
write boundary, but ConversationSummaryMemory.addAiMessage has no try/catch:
when the summarisation chain fails, the rejection propagates to the caller
(second component `some ...`). -/
theorem C3_summary_failure_counterexample :
    (ConversationSummaryMemory.addAiMessage ⟨"旧摘要"⟩ "你好" "回答"
      (fun _ _ _ => Except.error "network error")).2 = some "network error" := by
  decide

/-- C3 (amended): when the summarisation call fails, the stored summary is
left unchanged — a read immediately afterwards returns the pre-failure
summary — but the failure escapes the write boundary: addAiMessage
propagates the rejection to its caller instead of swallowing it. -/
theorem C3_summary_failure_preserves_state (m : ConversationSummaryMemory)
    (u a e : String)
    (chainInvoke : String → String → String → Except String String)
    (hfail : chainInvoke (if m.summary = "" then "无" else m.summary) u a =
      Except.error e) :
    (m.addAiMessage u a chainInvoke).1 = m ∧
    (m.addAiMessage u a chainInvoke).1.getSystemMessageContent =
      m.getSystemMessageContent ∧
    (m.addAiMessage u a chainInvoke).2 = some e := by
  simp [ConversationSummaryMemory.addAiMessage, hfail]

/-- C3 witness: concrete failing summarisation run. -/
theorem C3_summary_failure_preserves_state_witness :
    ((fun _ _ _ => Except.error "timeout" :
        String → String → String → Except String String)
      (if (ConversationSummaryMemory.mk "旧摘要").summary = "" then "无"
       else (ConversationSummaryMemory.mk "旧摘要").summary) "问" "答" =
      Except.error "timeout") ∧
    ((ConversationSummaryMemory.mk "旧摘要").addAiMessage "问" "答"
        (fun _ _ _ => Except.error "timeout")).1 = ConversationSummaryMemory.mk "旧摘要" ∧
    ((ConversationSummaryMemory.mk "旧摘要").addAiMessage "问" "答"
        (fun _ _ _ => Except.error "timeout")).1.getSystemMessageContent =
      (ConversationSummaryMemory.mk "旧摘要").getSystemMessageContent ∧
    ((ConversationSummaryMemory.mk "旧摘要").addAiMessage "问" "答"
        (fun _ _ _ => Except.error "timeout")).2 = some "timeout" :=
  ⟨rfl,
   C3_summary_failure_preserves_state (ConversationSummaryMemory.mk "旧摘要")
     "问" "答" "timeout" (fun _ _ _ => Except.error "timeout") rfl⟩

theorem ConversationSummaryBufferMemory.saveContext_chatHistory
    (m : ConversationSummaryBufferMemory) (u a : String)
    (f : String → String → String) :
    (m.saveContext u a f).chatHistory =
      m.chatHistory ++ [Msg.mk MsgRole.human u, Msg.mk MsgRole.ai a] := by
  simp only [ConversationSummaryBufferMemory.saveContext,
    ConversationSummaryBufferMemory.updateSummary]
  split <;> rfl

theorem ConversationSummaryBufferMemory.saveContext_k
    (m : ConversationSummaryBufferMemory) (u a : String)
    (f : String → String → String) :
    (m.saveContext u a f).k = m.k := by
  simp only [ConversationSummaryBufferMemory.saveContext,
    ConversationSummaryBufferMemory.updateSummary]
  split <;> rfl

theorem ConversationSummaryBufferMemory.applySaves_chatHistory
    (f : String → String → String) (ps : List (String × String)) :
    ∀ m : ConversationSummaryBufferMemory,
    (m.applySaves f ps).chatHistory = m.chatHistory ++ turnsOfPairs ps := by
  induction ps with
  | nil =>
    intro m
    simp [ConversationSummaryBufferMemory.applySaves, turnsOfPairs]
  | cons p ps ih =>
    intro m
    cases p with
    | mk u a =>
      simp [ConversationSummaryBufferMemory.applySaves, turnsOfPairs, ih,
        ConversationSummaryBufferMemory.saveContext_chatHistory]

theorem ConversationSummaryBufferMemory.applySaves_k
    (f : String → String → String) (ps : List (String × String)) :
    ∀ m : ConversationSummaryBufferMemory, (m.applySaves f ps).k = m.k := by
  induction ps with
  | nil => intro m; simp [ConversationSummaryBufferMemory.applySaves]
  | cons p ps ih =>
    intro m
    cases p with
    | mk u a =>
      simp [ConversationSummaryBufferMemory.applySaves, ih,
        ConversationSummaryBufferMemory.saveContext_k]

/-- C9 counterexample: the claim fails at k = 0.  After one saveContext the
stored history holds 2 messages; the claimed read is the last
`min (total, 2·k) = 0` raw messages, but because JavaScript `slice(-0)` is
`slice(0)`, getContext returns both stored messages. -/
theorem C9_summary_window_zero_counterexample :
    ((ConversationSummaryBufferMemory.mk "" 0 []).saveContext "我是小红" "你好"
        (fun s _ => s)).getContext.2.length = 2 ∧
    min ((ConversationSummaryBufferMemory.mk "" 0 []).saveContext "我是小红" "你好"
        (fun s _ => s)).chatHistory.length
      (2 * ((ConversationSummaryBufferMemory.mk "" 0 []).saveContext "我是小红" "你好"
        (fun s _ => s)).k) = 0 := by
  decide

/-- C9 (amended to k ≥ 1): a SummaryWindow(k) write appends the raw user
and assistant turns and they remain in storage forever; exactly when the
stored history exceeds (k+2)·2 messages the write folds the stored
messages other than the newest 2·k into the summary via the
summarize-and-replace call; every read returns the summary plus only the
last min(total, 2·k) raw messages, so turns folded at an earlier state
(the first `length - 2·k` of its history) are excluded from every future
read. -/
theorem C9_summary_window_fold (m : ConversationSummaryBufferMemory)
    (hk : 1 ≤ m.k) (pairs : List (String × String))
    (f : String → String → String) :
    ((m.applySaves f pairs).chatHistory = m.chatHistory ++ turnsOfPairs pairs) ∧
    ((m.applySaves f pairs).getContext.2 =
      (m.applySaves f pairs).chatHistory.drop
        ((m.applySaves f pairs).chatHistory.length -
          min (m.applySaves f pairs).chatHistory.length (2 * m.k))) ∧
    (∃ d, (m.applySaves f pairs).getContext.2 =
        (m.applySaves f pairs).chatHistory.drop d ∧
      m.chatHistory.length - 2 * m.k ≤ d) ∧
    (∀ u a, (m.saveContext u a f).summary =
      if m.chatHistory.length + 2 > (m.k + 2) * 2 then
        f (if m.summary = "" then "无" else m.summary)
          (renderOldMessages
            ((m.chatHistory ++ [Msg.mk MsgRole.human u, Msg.mk MsgRole.ai a]).take
              (m.chatHistory.length + 2 - m.k * 2)))
      else m.summary) := by
  have hh := ConversationSummaryBufferMemory.applySaves_chatHistory f pairs m
  have hkk := ConversationSummaryBufferMemory.applySaves_k f pairs m
  have hlen : m.chatHistory.length ≤ (m.applySaves f pairs).chatHistory.length := by
    rw [hh]; simp
  have hread : (m.applySaves f pairs).getContext.2 =
      (m.applySaves f pairs).chatHistory.drop
        ((m.applySaves f pairs).chatHistory.length -
          min (m.applySaves f pairs).chatHistory.length (2 * m.k)) := by
    simp only [ConversationSummaryBufferMemory.getContext, hkk]
    rw [sliceLastJs_pos (m.k * 2) (by omega)]
    rw [show m.k * 2 = 2 * m.k by omega]
  refine ⟨hh, hread, ⟨_, hread, ?_⟩, ?_⟩
  · have := (m.applySaves f pairs).chatHistory.length
    omega
  · intro u a
    simp only [ConversationSummaryBufferMemory.saveContext,
      ConversationSummaryBufferMemory.updateSummary]
    have hlapp : (m.chatHistory ++ [Msg.mk MsgRole.human u, Msg.mk MsgRole.ai a]).length =
        m.chatHistory.length + 2 := by simp
    split
    · next hcond =>
      rw [hlapp] at hcond
      simp only [hlapp]
      rw [if_pos hcond]
    · next hcond =>
      rw [hlapp] at hcond
      rw [if_neg hcond]

/-- C9 witness: a concrete SummaryWindow(1) run of four writes; the fourth
write pushes the stored history to 8 > (1+2)·2 = 6 messages and folds the
oldest six into the summary; the read returns the last 2 raw messages. -/
theorem C9_summary_window_fold_witness :
    (1 ≤ (ConversationSummaryBufferMemory.mk "" 1 []).k) ∧
    ((((ConversationSummaryBufferMemory.mk "" 1 []).applySaves
        (fun _ ls => ls) [("u1", "a1"), ("u2", "a2"), ("u3", "a3"), ("u4", "a4")]).chatHistory =
      (ConversationSummaryBufferMemory.mk "" 1 []).chatHistory ++
        turnsOfPairs [("u1", "a1"), ("u2", "a2"), ("u3", "a3"), ("u4", "a4")]) ∧
    (((ConversationSummaryBufferMemory.mk "" 1 []).applySaves
        (fun _ ls => ls) [("u1", "a1"), ("u2", "a2"), ("u3", "a3"), ("u4", "a4")]).getContext.2 =
      ((ConversationSummaryBufferMemory.mk "" 1 []).applySaves
        (fun _ ls => ls) [("u1", "a1"), ("u2", "a2"), ("u3", "a3"), ("u4", "a4")]).chatHistory.drop
        (((ConversationSummaryBufferMemory.mk "" 1 []).applySaves
        (fun _ ls => ls) [("u1", "a1"), ("u2", "a2"), ("u3", "a3"), ("u4", "a4")]).chatHistory.length -
          min ((ConversationSummaryBufferMemory.mk "" 1 []).applySaves
        (fun _ ls => ls) [("u1", "a1"), ("u2", "a2"), ("u3", "a3"), ("u4", "a4")]).chatHistory.length
            (2 * (ConversationSummaryBufferMemory.mk "" 1 []).k))) ∧
    (∃ d, ((ConversationSummaryBufferMemory.mk "" 1 []).applySaves
        (fun _ ls => ls) [("u1", "a1"), ("u2", "a2"), ("u3", "a3"), ("u4", "a4")]).getContext.2 =
        ((ConversationSummaryBufferMemory.mk "" 1 []).applySaves
        (fun _ ls => ls) [("u1", "a1"), ("u2", "a2"), ("u3", "a3"), ("u4", "a4")]).chatHistory.drop d ∧
      (ConversationSummaryBufferMemory.mk "" 1 []).chatHistory.length -
        2 * (ConversationSummaryBufferMemory.mk "" 1 []).k ≤ d) ∧
    (∀ u a, ((ConversationSummaryBufferMemory.mk "" 1 []).saveContext u a
        (fun _ ls => ls)).summary =
      if (ConversationSummaryBufferMemory.mk "" 1 []).chatHistory.length + 2 >
          ((ConversationSummaryBufferMemory.mk "" 1 []).k + 2) * 2 then
        (fun _ ls => ls : String → String → String)
          (if (ConversationSummaryBufferMemory.mk "" 1 []).summary = "" then "无"
           else (ConversationSummaryBufferMemory.mk "" 1 []).summary)
          (renderOldMessages
            (((ConversationSummaryBufferMemory.mk "" 1 []).chatHistory ++
                [Msg.mk MsgRole.human u, Msg.mk MsgRole.ai a]).take
              ((ConversationSummaryBufferMemory.mk "" 1 []).chatHistory.length + 2 -
                (ConversationSummaryBufferMemory.mk "" 1 []).k * 2)))
      else (ConversationSummaryBufferMemory.mk "" 1 []).summary)) :=
  ⟨by decide,
   C9_summary_window_fold (ConversationSummaryBufferMemory.mk "" 1 []) (by decide)
     [("u1", "a1"), ("u2", "a2"), ("u3", "a3"), ("u4", "a4")] (fun _ ls => ls)⟩

theorem lookup_append_cases (l₁ l₂ : List (String × String)) (key : String) :
    (l₁ ++ l₂).lookup key =
      match l₁.lookup key with
      | some v => some v
      | none => l₂.lookup key := by
  induction l₁ with
  | nil => simp [List.lookup]
  | cons p l₁ ih =>
    cases p with
    | mk a b =>
      simp only [List.cons_append, List.lookup]
      cases h : (key == a) <;> simp [h, ih]

theorem lookup_map_override (nw old : List (String × String)) (key : String) :
    (old.map (fun p => (p.1, (nw.lookup p.1).getD p.2))).lookup key =
      match old.lookup key with
      | some v => some ((nw.lookup key).getD v)
      | none => none := by
  induction old with
  | nil => simp [List.lookup]
  | cons p old ih =>
    cases p with
    | mk a b =>
      simp only [List.map_cons, List.lookup]
      cases h : (key == a) with
      | true =>
        have hk : key = a := by simpa using h
        subst hk
        simp
      | false => simp [h, ih]

theorem lookup_filter_newkeys (old nw : List (String × String)) (key : String) :
    (nw.filter (fun p => (old.lookup p.1).isNone)).lookup key =
      if (old.lookup key).isNone then nw.lookup key else none := by
  induction nw with
  | nil => simp [List.lookup]
  | cons p nw ih =>
    cases p with
    | mk a b =>
      by_cases hk : key = a
      · subst hk
        cases hp : (old.lookup key).isNone with
        | true => simp [List.filter_cons, hp, List.lookup, ih]
        | false => simp [List.filter_cons, hp, List.lookup, ih]
      · have hbeq : (key == a) = false := by simp [hk]
        cases hp : (old.lookup a).isNone <;>
          simp [List.filter_cons, hp, List.lookup, hbeq, ih]

/-- C7: each Entity write spread-merges the extracted object into the table:
for every key, the merged binding is the new value when the extraction
proposes one and the previous value otherwise (later values override,
previously seen keys persist, no key is removed); and the concrete three-stage
scenario — writing {A:x}, then {B:y}, then {A:z} — yields exactly the table
{A:z, B:y}. -/
theorem C7_entity_merge :
    (∀ (old nw : List (String × String)) (key : String),
      (jsSpreadMerge old nw).lookup key =
        match nw.lookup key with
        | some v => some v
        | none => old.lookup key) ∧
    ((((EntityMemory.mk []).saveContext (Except.ok [("A", "x")])).1.saveContext
        (Except.ok [("B", "y")])).1.saveContext (Except.ok [("A", "z")])).1.entities =
      [("A", "z"), ("B", "y")] := by
  constructor
  · intro old nw key
    unfold jsSpreadMerge
    rw [lookup_append_cases, lookup_map_override, lookup_filter_newkeys]
    cases ho : old.lookup key with
    | none => cases hn : nw.lookup key <;> simp [ho, hn]
    | some v => cases hn : nw.lookup key <;> simp [ho, hn]
  · decide

/-- C8: when the extraction response cannot be parsed (or the extraction
call itself fails), EntityMemory.saveContext leaves the entity table exactly
as it was, and — because the whole body sits in a try/catch whose handler
only logs — no exception propagates to the caller (escaped-exception
component is none). -/
theorem C8_entity_extraction_failure (m : EntityMemory) (e : String) :
    m.saveContext (Except.error e) = (m, none) := rfl

-- ---------------------------------------------------------------------------
-- Part 2: DashScope WebSocket handler (src/routes/dashscope/webSocket.ts)
-- ---------------------------------------------------------------------------

/-- A JSON value as produced by a successful JSON.parse of the client
message text. -/
inductive JsonValue where
  | null
  | bool (b : Bool)
  | num (n : Int)
  | str (s : String)
  | arr (xs : List JsonValue)
  | obj (fields : List (String × JsonValue))

/-- JavaScript truthiness of a JSON.parse result (the `!parsed` test):
null, false, 0 and the empty string are falsy. -/
def jsFalsy : JsonValue → Bool
  | JsonValue.null => true
  | JsonValue.bool b => !b
  | JsonValue.num n => n == 0
  | JsonValue.str s => s == ""
  | JsonValue.arr _ => false
  | JsonValue.obj _ => false

/-- The `typeof parsed === 'object'` test on a JSON.parse result: objects,
arrays and null have typeof 'object'. -/
def jsIsObjectType : JsonValue → Bool
  | JsonValue.null => true
  | JsonValue.arr _ => true
  | JsonValue.obj _ => true
  | _ => false

/-- Property read `value.field` on a JSON value: defined on objects,
undefined elsewhere (JSON.parse output has unique keys). -/
def getField : JsonValue → String → Option JsonValue
  | JsonValue.obj fields, key => fields.lookup key
  | _, _ => none

/-- One entry of the normalised request messages:
`{ role: 'system' | 'user' | 'assistant', content: string }`. -/
structure ChatEntry where
  role : String
  content : String
deriving DecidableEq

/-- The filter-and-map of the messages array:
`m && (m.role === 'system' || m.role === 'user' || m.role === 'assistant')
&& typeof m.content === 'string'`, then `{ role: m.role, content:
m.content }`.  Falsy elements and elements without a valid string role or
string content are dropped. -/
def clientEntry (j : JsonValue) : Option ChatEntry :=
  if jsFalsy j then none
  else
    match getField j "role", getField j "content" with
    | some (JsonValue.str r), some (JsonValue.str c) =>
      if r == "system" || r == "user" || r == "assistant" then
        some ⟨r, c⟩
      else none
    | _, _ => none

/-- The fallback single user turn:
`typeof msg.input === 'string' ? msg.input.trim() : ''`. -/
def inputContent (msg : JsonValue) : String :=
  match getField msg "input" with
  | some (JsonValue.str s) => jsTrim s
  | _ => ""

/-- buildRequestMessages: use the messages array verbatim (filtered to
valid roles with string content) when present and non-empty, otherwise a
single user turn built from the trimmed input. -/
def buildRequestMessages (msg : JsonValue) : List ChatEntry :=
  match getField msg "messages" with
  | some (JsonValue.arr xs) =>
    if xs.length > 0 then xs.filterMap clientEntry
    else [⟨"user", inputContent msg⟩]
  | _ => [⟨"user", inputContent msg⟩]

/-- The request id: `typeof msg.id === 'string' && msg.id.trim() ?
msg.id.trim() : Date.now()`; `now` stands for the Date.now() string. -/
def requestIdOf (msg : JsonValue) (now : String) : String :=
  match getField msg "id" with
  | some (JsonValue.str s) => if jsTrim s == "" then now else jsTrim s
  | _ => now

/-- The content validation of step 3 of the message handler:
`!requestMessages.length || !requestMessages[0]?.content?.trim()` rejects;
this predicate is the acceptance condition. -/
def hasUsableContent : List ChatEntry → Bool
  | [] => false
  | e :: _ => !(jsTrim e.content == "")

/-- Whole-message acceptance: the JSON value is a truthy object and the
built request messages pass the content validation. -/
def acceptsMessage (v : JsonValue) : Bool :=
  !jsFalsy v && jsIsObjectType v && hasUsableContent (buildRequestMessages v)

/-- Server-to-client protocol message (`ServerMessage` in the source; the
`end` variant is named endMsg because `end` is a Lean keyword). -/
inductive SMsg where
  | ready
  | start (id : String)
  | delta (id : String) (content : String)
  | endMsg (id : String)
  | error (id : Option String) (message : String)
deriving DecidableEq

/-- Progress of one in-flight message-handler invocation: either suspended
on `await dashscopeClient.chat.completions.create(...)`, or inside the
`for await` loop with the remaining upstream fragments. -/
inductive Phase where
  | awaitingStream
  | streaming (remaining : List String)
deriving DecidableEq

/-- One in-flight message-handler invocation that has passed validation:
its request id, the AbortController allocated for it (numbered by
allocation order), and its progress.  Completed handlers are removed. -/
structure HandlerTask where
  reqId : String
  ctrl : Nat
  phase : Phase
deriving DecidableEq

/-- State of one WebSocket connection: whether the socket is still open,
the connection-scoped `activeController` and the set of aborted
controllers, the in-flight handler invocations, and the trace of messages
actually delivered to the client. -/
structure ConnState where
  wsOpen : Bool
  activeCtrl : Option Nat
  nextCtrl : Nat
  aborted : List Nat
  tasks : List HandlerTask
  trace : List SMsg
deriving DecidableEq

/-- sendJson: `if (ws.readyState !== WebSocket.OPEN) return; ws.send(...)` —
a message is appended to the delivered trace only while the socket is
open. -/
def sendJson (s : ConnState) (payload : SMsg) : ConnState :=
  if s.wsOpen then { s with trace := s.trace ++ [payload] } else s

/-- Error reply text for a non-JSON-object client message. -/
def jsonObjectErrText : String := "消息必须是 JSON 对象"

/-- Error reply text for a message without usable content. -/
def missingParamErrText : String := "缺少必要参数：input（string）或 messages（array）"

/-- Message of the abort rejection surfaced by the SDK when the request is
cancelled (modelled as a fixed string; no claim depends on its text). -/
def abortErrText : String := "Request was aborted."

/-- Abort the connection's active controller, if any (the source's
`if (activeController) activeController.abort()`). -/
def abortActive (s : ConnState) : List Nat :=
  match s.activeCtrl with
  | some c => c :: s.aborted
  | none => s.aborted

/-- The synchronous prefix of the `ws.on('message')` handler, which runs as
one uninterrupted slice of the event loop up to the first await: JSON
parse check (raw = none models a JSON.parse throw), content validation,
abort of the previous controller, installation of a fresh controller,
emission of `start`, and suspension at the upstream create call. -/
def recvStep (raw : Option JsonValue) (now : String) (s : ConnState) : ConnState :=
  match raw with
  | none => sendJson s (SMsg.error none jsonObjectErrText)
  | some v =>
    if jsFalsy v || !jsIsObjectType v then
      sendJson s (SMsg.error none jsonObjectErrText)
    else
      let requestId := requestIdOf v now
      if !hasUsableContent (buildRequestMessages v) then
        sendJson s (SMsg.error (some requestId) missingParamErrText)
      else
        let c := s.nextCtrl
        let s2 : ConnState :=
          { s with aborted := abortActive s, activeCtrl := some c, nextCtrl := c + 1 }
        let s3 := sendJson s2 (SMsg.start requestId)
        { s3 with tasks := s3.tasks ++ [⟨requestId, c, Phase.awaitingStream⟩] }

/-- Remove the completed handler task owning controller `c`. -/
def removeTask (c : Nat) (tasks : List HandlerTask) : List HandlerTask :=
  tasks.filter (fun t => !(t.ctrl == c))

/-- Record the new loop position of the handler task owning controller `c`. -/
def setPhase (c : Nat) (p : Phase) (tasks : List HandlerTask) : List HandlerTask :=
  tasks.map (fun t => if t.ctrl == c then { t with phase := p } else t)

/-- Resolution of the awaited `dashscopeClient.chat.completions.create`
call for the handler owning controller `c`.  The upstream outcome is an
oracle: either the fragment stream or a rejection (auth, rate limit,
network, or abort), in which case the catch block sends the error reply
and the handler completes. -/
def resolveStep (c : Nat) (outcome : Except String (List String)) (s : ConnState) :
    Option ConnState :=
  match s.tasks.find? (fun t => t.ctrl == c) with
  | some t =>
    match t.phase with
    | Phase.awaitingStream =>
      match outcome with
      | Except.ok fragments =>
        some { s with tasks := setPhase c (Phase.streaming fragments) s.tasks }
      | Except.error e =>
        some (sendJson { s with tasks := removeTask c s.tasks }
          (SMsg.error (some t.reqId) e))
    | _ => none
  | none => none

/-- One iteration boundary of the `for await (const chunk of stream)` loop
of the handler owning controller `c`.  A stream whose controller has been
aborted rejects at the next pull, landing in the catch block (error reply,
handler completes).  Otherwise an exhausted stream exits the loop and the
handler sends `end`; a delivered chunk is forwarded as `delta` when its
content is a non-empty string, except that a closed socket breaks out of
the loop (and the subsequent `end` send is suppressed by sendJson). -/
def pullStep (c : Nat) (s : ConnState) : Option ConnState :=
  match s.tasks.find? (fun t => t.ctrl == c) with
  | some t =>
    match t.phase with
    | Phase.streaming remaining =>
      if s.aborted.contains c then
        some (sendJson { s with tasks := removeTask c s.tasks }
          (SMsg.error (some t.reqId) abortErrText))
      else
        match remaining with
        | [] =>
          some (sendJson { s with tasks := removeTask c s.tasks }
            (SMsg.endMsg t.reqId))
        | f :: rest =>
          if !s.wsOpen then
            some (sendJson { s with tasks := removeTask c s.tasks }
              (SMsg.endMsg t.reqId))
          else
            some { (if !(f == "") then sendJson s (SMsg.delta t.reqId f) else s) with
                   tasks := setPhase c (Phase.streaming rest) s.tasks }
    | _ => none
  | none => none

/-- The `ws.on('close')` handler: abort the active controller and drop it;
the socket is closed from now on. -/
def closeStep (s : ConnState) : ConnState :=
  { s with wsOpen := false, aborted := abortActive s, activeCtrl := none }

/-- One atomic event of a connection: a client message arriving, the
upstream create call resolving, one fragment-pull boundary, or the socket
closing. -/
inductive Label where
  | recv (raw : Option JsonValue) (now : String)
  | resolve (ctrl : Nat) (outcome : Except String (List String))
  | pull (ctrl : Nat)
  | close

/-- The transition function: `none` when the event cannot occur in the
given state (message or close on an already-closed socket, resolve or pull
for a handler that is not at that suspension point). -/
def step (l : Label) (s : ConnState) : Option ConnState :=
  match l with
  | Label.recv raw now => if s.wsOpen then some (recvStep raw now s) else none
  | Label.resolve c outcome => resolveStep c outcome s
  | Label.pull c => pullStep c s
  | Label.close => if s.wsOpen then some (closeStep s) else none

/-- Run a sequence of events. -/
def run : List Label → ConnState → Option ConnState
  | [], s => some s
  | l :: ls, s =>
    match step l s with
    | some s2 => run ls s2
    | none => none

/-- State of a connection right after `wss.on('connection')` finished:
open socket, no controller, no in-flight handler, `ready` delivered. -/
def initState : ConnState :=
  { wsOpen := true, activeCtrl := none, nextCtrl := 0, aborted := [],
    tasks := [], trace := [SMsg.ready] }

/-- A connection state the handler can actually reach. -/
def Reachable (s : ConnState) : Prop :=
  ∃ ls : List Label, run ls initState = some s

/-- Does this protocol message carry a delta for the given request id? -/
def isDeltaFor (id : String) : SMsg → Bool
  | SMsg.delta i _ => i == id
  | _ => false

/-- Does this protocol message carry an `end` for the given request id? -/
def isEndFor (id : String) : SMsg → Bool
  | SMsg.endMsg i => i == id
  | _ => false

/-- Is this protocol message terminal (end or error) for the given id? -/
def isTerminalFor (id : String) : SMsg → Bool
  | SMsg.endMsg i => i == id
  | SMsg.error (some i) _ => i == id
  | _ => false

/-- Number of terminal messages for the given id in a trace. -/
def termCount (id : String) (tr : List SMsg) : Nat :=
  (tr.filter (isTerminalFor id)).length

/-- A request id that has been accepted (start delivered) but for which no
terminal message has been delivered. -/
def unterminated (tr : List SMsg) (id : String) : Bool :=
  tr.contains (SMsg.start id) && tr.all (fun m => !isTerminalFor id m)

/-- Number of in-flight handler invocations for the given request id. -/
def pendingFor (id : String) (s : ConnState) : Nat :=
  (s.tasks.filter (fun t => t.reqId == id)).length

/-- Would this event start a handler whose request id is `id`?  (Used to
state that a run does not reuse a request id: over-approximates by looking
only at the id computation, not at validity.) -/
def labelSpawnsId (id : String) : Label → Bool
  | Label.recv (some v) now => requestIdOf v now == id
  | Label.recv none _ => false
  | _ => false


-- ---------------------------------------------------------------------------
-- Part 2 helper lemmas
-- ---------------------------------------------------------------------------

/-- All in-flight handlers whose request id is `id` have been cancelled
(their controllers aborted). -/
def Quarantined (id : String) (s : ConnState) : Prop :=
  ∀ t ∈ s.tasks, t.reqId = id → t.ctrl ∈ s.aborted

/-- Structural invariant of reachable connection states: controllers are
allocated at most once and below the allocation counter, and every
non-aborted in-flight handler owns the connection's active controller. -/
structure ConnInv (s : ConnState) : Prop where
  ctrlsNodup : (s.tasks.map HandlerTask.ctrl).Nodup
  ctrlsLt : ∀ t ∈ s.tasks, t.ctrl < s.nextCtrl
  abortedLt : ∀ c ∈ s.aborted, c < s.nextCtrl
  activeLt : ∀ c, s.activeCtrl = some c → c < s.nextCtrl
  liveActive : ∀ t ∈ s.tasks, t.ctrl ∉ s.aborted → s.activeCtrl = some t.ctrl

theorem sendJson_wsOpen (s : ConnState) (m : SMsg) :
    (sendJson s m).wsOpen = s.wsOpen := by
  unfold sendJson; split <;> rfl

theorem sendJson_activeCtrl (s : ConnState) (m : SMsg) :
    (sendJson s m).activeCtrl = s.activeCtrl := by
  unfold sendJson; split <;> rfl

theorem sendJson_nextCtrl (s : ConnState) (m : SMsg) :
    (sendJson s m).nextCtrl = s.nextCtrl := by
  unfold sendJson; split <;> rfl

theorem sendJson_aborted (s : ConnState) (m : SMsg) :
    (sendJson s m).aborted = s.aborted := by
  unfold sendJson; split <;> rfl

theorem sendJson_tasks (s : ConnState) (m : SMsg) :
    (sendJson s m).tasks = s.tasks := by
  unfold sendJson; split <;> rfl

theorem sendJson_trace_open (s : ConnState) (m : SMsg) (h : s.wsOpen = true) :
    (sendJson s m).trace = s.trace ++ [m] := by
  unfold sendJson; rw [if_pos h]

theorem sendJson_trace (s : ConnState) (m : SMsg) :
    ∃ app, (sendJson s m).trace = s.trace ++ app ∧ (app = [m] ∨ app = []) := by
  unfold sendJson
  by_cases h : s.wsOpen = true
  · exact ⟨[m], by rw [if_pos h], Or.inl rfl⟩
  · exact ⟨[], by rw [if_neg h]; simp, Or.inr rfl⟩

theorem setPhase_map_ctrl (c : Nat) (p : Phase) (ts : List HandlerTask) :
    (setPhase c p ts).map HandlerTask.ctrl = ts.map HandlerTask.ctrl := by
  induction ts with
  | nil => rfl
  | cons t ts ih =>
    simp only [setPhase, List.map_cons] at *
    by_cases h : (t.ctrl == c) = true
    · rw [if_pos h, ih]
    · rw [if_neg h, ih]

theorem mem_setPhase (c : Nat) (p : Phase) (ts : List HandlerTask)
    (t2 : HandlerTask) (h : t2 ∈ setPhase c p ts) :
    ∃ t1 ∈ ts, t2.ctrl = t1.ctrl ∧ t2.reqId = t1.reqId := by
  simp only [setPhase, List.mem_map] at h
  obtain ⟨t1, ht1, heq⟩ := h
  by_cases hc : (t1.ctrl == c) = true
  · rw [if_pos hc] at heq
    exact ⟨t1, ht1, by rw [← heq], by rw [← heq]⟩
  · rw [if_neg hc] at heq
    exact ⟨t1, ht1, by rw [← heq], by rw [← heq]⟩

theorem removeTask_sublist (c : Nat) (ts : List HandlerTask) :
    (removeTask c ts).Sublist ts :=
  List.filter_sublist ts

theorem mem_removeTask (c : Nat) (ts : List HandlerTask) (t : HandlerTask)
    (h : t ∈ removeTask c ts) : t ∈ ts :=
  List.Sublist.mem h (removeTask_sublist c ts)

theorem filter_reqId_map (g : HandlerTask → HandlerTask)
    (hg : ∀ t, (g t).reqId = t.reqId) (id : String) (ts : List HandlerTask) :
    ((ts.map g).filter (fun t => t.reqId == id)).length =
      (ts.filter (fun t => t.reqId == id)).length := by
  induction ts with
  | nil => rfl
  | cons t ts ih =>
    rw [List.map_cons, List.filter_cons, List.filter_cons]
    by_cases hid : (t.reqId == id) = true
    · have hgid : ((g t).reqId == id) = true := by rw [hg t]; exact hid
      rw [if_pos hgid, if_pos hid, List.length_cons, List.length_cons, ih]
    · have hgid : ¬ ((g t).reqId == id) = true := by rw [hg t]; exact hid
      rw [if_neg hgid, if_neg hid, ih]

theorem setPhase_pendingFilter (id : String) (c : Nat) (p : Phase)
    (ts : List HandlerTask) :
    ((setPhase c p ts).filter (fun t => t.reqId == id)).length =
      (ts.filter (fun t => t.reqId == id)).length := by
  unfold setPhase
  exact filter_reqId_map _ (fun t => by by_cases h : (t.ctrl == c) = true <;> simp [h])
    id ts

theorem removeTask_pendingFilter (id : String) (c : Nat) (t : HandlerTask)
    (ts : List HandlerTask) (hnd : (ts.map HandlerTask.ctrl).Nodup)
    (hf : ts.find? (fun x => x.ctrl == c) = some t) :
    ((removeTask c ts).filter (fun x => x.reqId == id)).length +
      (if (t.reqId == id) = true then 1 else 0) =
      (ts.filter (fun x => x.reqId == id)).length := by
  induction ts with
  | nil => simp [List.find?] at hf
  | cons h ts ih =>
    by_cases hc : (h.ctrl == c) = true
    · have hfc : List.find? (fun x => x.ctrl == c) (h :: ts) = some h :=
        List.find?_cons_of_pos ts hc
      rw [hfc] at hf
      have hth : t = h := by injection hf with hf; exact hf.symm
      subst hth
      have hcc : t.ctrl = c := by simpa using hc
      have hnotin : ∀ x ∈ ts, (x.ctrl == c) = false := by
        intro x hx
        have hmem : x.ctrl ∈ ts.map HandlerTask.ctrl := List.mem_map_of_mem _ hx
        have hni : t.ctrl ∉ ts.map HandlerTask.ctrl := (List.nodup_cons.mp hnd).1
        have hne : x.ctrl ≠ c := by
          intro he
          rw [← he] at hcc
          exact hni (by rw [hcc]; exact hmem)
        simpa using hne
      have hrest : removeTask c ts = ts := by
        unfold removeTask
        apply List.filter_eq_self.mpr
        intro x hx
        simp [hnotin x hx]
      have hhead : removeTask c (t :: ts) = removeTask c ts := by
        unfold removeTask
        rw [List.filter_cons]
        simp [hc]
      rw [hhead, hrest, List.filter_cons]
      by_cases hid : (t.reqId == id) = true
      · rw [if_pos hid, if_pos hid]
        simp
      · rw [if_neg hid, if_neg hid]
        simp
    · have hfc : List.find? (fun x => x.ctrl == c) (h :: ts) =
          List.find? (fun x => x.ctrl == c) ts :=
        List.find?_cons_of_neg ts hc
      rw [hfc] at hf
      have hnd2 : (ts.map HandlerTask.ctrl).Nodup := (List.nodup_cons.mp hnd).2
      have hih := ih hnd2 hf
      have hhead : removeTask c (h :: ts) = h :: removeTask c ts := by
        unfold removeTask
        rw [List.filter_cons]
        simp [hc]
      rw [hhead, List.filter_cons, List.filter_cons]
      by_cases hid : (h.reqId == id) = true
      · rw [if_pos hid, if_pos hid]
        simp only [List.length_cons]
        omega
      · rw [if_neg hid, if_neg hid]
        omega

theorem abortActive_lt (s : ConnState) (hinv : ConnInv s) :
    ∀ c ∈ abortActive s, c < s.nextCtrl := by
  intro c hc
  unfold abortActive at hc
  cases hact : s.activeCtrl with
  | some a =>
    rw [hact] at hc
    rcases List.mem_cons.mp hc with h | h
    · rw [h]; exact hinv.activeLt a hact
    · exact hinv.abortedLt c h
  | none =>
    rw [hact] at hc
    exact hinv.abortedLt c hc

theorem aborted_subset_abortActive (s : ConnState) :
    ∀ c ∈ s.aborted, c ∈ abortActive s := by
  intro c hc
  unfold abortActive
  cases s.activeCtrl with
  | some a => exact List.mem_cons_of_mem _ hc
  | none => exact hc

/-- After the active controller is aborted, every previously in-flight
handler is cancelled. -/
theorem task_mem_abortActive (s : ConnState) (hinv : ConnInv s)
    (t : HandlerTask) (ht : t ∈ s.tasks) : t.ctrl ∈ abortActive s := by
  by_cases hab : t.ctrl ∈ s.aborted
  · exact aborted_subset_abortActive s t.ctrl hab
  · have h2 := hinv.liveActive t ht hab
    unfold abortActive
    rw [h2]
    exact List.mem_cons_self _ _

theorem nodup_ctrl_inj (ts : List HandlerTask)
    (hnd : (ts.map HandlerTask.ctrl).Nodup) (t1 t2 : HandlerTask)
    (h1 : t1 ∈ ts) (h2 : t2 ∈ ts) (hc : t1.ctrl = t2.ctrl) : t1 = t2 := by
  induction ts with
  | nil => cases h1
  | cons t ts ih =>
    have hnd1 : t.ctrl ∉ ts.map HandlerTask.ctrl := (List.nodup_cons.mp hnd).1
    have hnd2 : (ts.map HandlerTask.ctrl).Nodup := (List.nodup_cons.mp hnd).2
    rcases List.mem_cons.mp h1 with he1 | h1p
    · rcases List.mem_cons.mp h2 with he2 | h2p
      · rw [he1, he2]
      · exfalso
        apply hnd1
        have hcc : t.ctrl = t2.ctrl := by rw [← he1]; exact hc
        rw [hcc]
        exact List.mem_map_of_mem _ h2p
    · rcases List.mem_cons.mp h2 with he2 | h2p
      · exfalso
        apply hnd1
        have hcc : t1.ctrl = t.ctrl := by rw [← he2]; exact hc
        rw [← hcc]
        exact List.mem_map_of_mem _ h1p
      · exact ih hnd2 h1p h2p

theorem termCount_append (id : String) (a b : List SMsg) :
    termCount id (a ++ b) = termCount id a + termCount id b := by
  unfold termCount
  rw [List.filter_append, List.length_append]

/-- Characterisation of an accepted client message: the previous active
controller is aborted, a fresh controller is installed, `start` is
delivered, and the new handler is spawned suspended at the create call. -/
theorem recvStep_accepts (v : JsonValue) (now : String) (s : ConnState)
    (hopen : s.wsOpen = true) (hacc : acceptsMessage v = true) :
    recvStep (some v) now s =
      { wsOpen := s.wsOpen, activeCtrl := some s.nextCtrl,
        nextCtrl := s.nextCtrl + 1, aborted := abortActive s,
        tasks := s.tasks ++ [⟨requestIdOf v now, s.nextCtrl, Phase.awaitingStream⟩],
        trace := s.trace ++ [SMsg.start (requestIdOf v now)] } := by
  simp only [acceptsMessage, Bool.and_eq_true, Bool.not_eq_true'] at hacc
  obtain ⟨⟨h1, h2⟩, h3⟩ := hacc
  simp [recvStep, h1, h2, h3, sendJson, hopen, abortActive]

theorem recvStep_reject_parse (now : String) (s : ConnState)
    (hopen : s.wsOpen = true) :
    recvStep none now s =
      { s with trace := s.trace ++ [SMsg.error none jsonObjectErrText] } := by
  simp [recvStep, sendJson, hopen]

theorem recvStep_reject_notObject (v : JsonValue) (now : String) (s : ConnState)
    (hopen : s.wsOpen = true) (hbad : (jsFalsy v || !jsIsObjectType v) = true) :
    recvStep (some v) now s =
      { s with trace := s.trace ++ [SMsg.error none jsonObjectErrText] } := by
  simp only [recvStep, hbad, if_pos]
  simp [sendJson, hopen]

theorem recvStep_reject_content (v : JsonValue) (now : String) (s : ConnState)
    (hopen : s.wsOpen = true) (hobj : (jsFalsy v || !jsIsObjectType v) = false)
    (hbad : hasUsableContent (buildRequestMessages v) = false) :
    recvStep (some v) now s =
      { s with trace := s.trace ++
          [SMsg.error (some (requestIdOf v now)) missingParamErrText] } := by
  simp only [recvStep, hobj, hbad]
  simp [sendJson, hopen]

theorem resolveStep_wsOpen (c : Nat) (o : Except String (List String))
    (s s2 : ConnState) (h : resolveStep c o s = some s2) :
    s2.wsOpen = s.wsOpen := by
  unfold resolveStep at h
  cases hf : s.tasks.find? (fun t => t.ctrl == c) with
  | none =>
    simp only [hf] at h
    exact Option.noConfusion h
  | some t =>
    simp only [hf] at h
    cases hph : t.phase with
    | awaitingStream =>
      simp only [hph] at h
      cases o with
      | ok frags =>
        simp only at h
        injection h with h
        rw [← h]
      | error e =>
        simp only at h
        injection h with h
        rw [← h, sendJson_wsOpen]
    | streaming rem =>
      simp only [hph] at h
      exact Option.noConfusion h

theorem resolveStep_cases (c : Nat) (o : Except String (List String))
    (s s2 : ConnState) (h : resolveStep c o s = some s2) :
    ∃ t, s.tasks.find? (fun x => x.ctrl == c) = some t ∧
      t.phase = Phase.awaitingStream ∧
      ((∃ frags, o = Except.ok frags ∧
          s2 = { s with tasks := setPhase c (Phase.streaming frags) s.tasks }) ∨
       (∃ e, o = Except.error e ∧
          s2 = sendJson { s with tasks := removeTask c s.tasks }
            (SMsg.error (some t.reqId) e))) := by
  unfold resolveStep at h
  cases hf : s.tasks.find? (fun x => x.ctrl == c) with
  | none =>
    simp only [hf] at h
    exact Option.noConfusion h
  | some t =>
    simp only [hf] at h
    cases hph : t.phase with
    | awaitingStream =>
      simp only [hph] at h
      cases o with
      | ok frags =>
        simp only at h
        injection h with h
        exact ⟨t, rfl, hph, Or.inl ⟨frags, rfl, h.symm⟩⟩
      | error e =>
        simp only at h
        injection h with h
        exact ⟨t, rfl, hph, Or.inr ⟨e, rfl, h.symm⟩⟩
    | streaming rem =>
      simp only [hph] at h
      exact Option.noConfusion h

theorem pullStep_cases (c : Nat) (s s2 : ConnState) (h : pullStep c s = some s2) :
    ∃ t rem, s.tasks.find? (fun x => x.ctrl == c) = some t ∧
      t.phase = Phase.streaming rem ∧
      ((s.aborted.contains c = true ∧
          s2 = sendJson { s with tasks := removeTask c s.tasks }
            (SMsg.error (some t.reqId) abortErrText)) ∨
       (s.aborted.contains c = false ∧ rem = [] ∧
          s2 = sendJson { s with tasks := removeTask c s.tasks }
            (SMsg.endMsg t.reqId)) ∨
       (∃ f rest, s.aborted.contains c = false ∧ rem = f :: rest ∧
          s.wsOpen = false ∧
          s2 = sendJson { s with tasks := removeTask c s.tasks }
            (SMsg.endMsg t.reqId)) ∨
       (∃ f rest, s.aborted.contains c = false ∧ rem = f :: rest ∧
          s.wsOpen = true ∧
          s2 = { (if !(f == "") then sendJson s (SMsg.delta t.reqId f) else s) with
                 tasks := setPhase c (Phase.streaming rest) s.tasks })) := by
  unfold pullStep at h
  cases hf : s.tasks.find? (fun x => x.ctrl == c) with
  | none =>
    simp only [hf] at h
    exact Option.noConfusion h
  | some t =>
    simp only [hf] at h
    cases hph : t.phase with
    | awaitingStream =>
      simp only [hph] at h
      exact Option.noConfusion h
    | streaming rem =>
      simp only [hph] at h
      by_cases hab : s.aborted.contains c = true
      · rw [if_pos hab] at h
        injection h with h
        exact ⟨t, rem, rfl, hph, Or.inl ⟨hab, h.symm⟩⟩
      · rw [if_neg hab] at h
        have hab2 : s.aborted.contains c = false := by
          simpa using hab
        cases rem with
        | nil =>
          injection h with h
          exact ⟨t, [], rfl, hph, Or.inr (Or.inl ⟨hab2, rfl, h.symm⟩)⟩
        | cons f rest =>
          by_cases hws : s.wsOpen = true
          · have hnws : (!s.wsOpen) = false := by rw [hws]; rfl
            rw [hnws] at h
            simp only [Bool.false_eq_true, if_false] at h
            injection h with h
            exact ⟨t, f :: rest, rfl, hph,
              Or.inr (Or.inr (Or.inr ⟨f, rest, hab2, rfl, hws, h.symm⟩))⟩
          · have hws2 : s.wsOpen = false := by
              cases hw : s.wsOpen
              · rfl
              · exact absurd hw hws
            have hnws : (!s.wsOpen) = true := by rw [hws2]; rfl
            rw [hnws] at h
            simp only [if_true] at h
            injection h with h
            exact ⟨t, f :: rest, rfl, hph,
              Or.inr (Or.inr (Or.inl ⟨f, rest, hab2, rfl, hws2, h.symm⟩))⟩

theorem pullStep_wsOpen (c : Nat) (s s2 : ConnState)
    (h : pullStep c s = some s2) : s2.wsOpen = s.wsOpen := by
  obtain ⟨t, rem, hf, hph, hcase⟩ := pullStep_cases c s s2 h
  rcases hcase with ⟨_, he⟩ | ⟨_, _, he⟩ | ⟨f, rest, _, _, _, he⟩ | ⟨f, rest, _, _, _, he⟩ <;>
    rw [he]
  · rw [sendJson_wsOpen]
  · rw [sendJson_wsOpen]
  · rw [sendJson_wsOpen]
  · by_cases hfe : (!(f == "")) = true
    · rw [if_pos hfe]
      simp only [sendJson_wsOpen]
    · rw [if_neg hfe]

theorem step_wsOpen (l : Label) (s s2 : ConnState) (h : step l s = some s2)
    (h2 : s2.wsOpen = true) : s.wsOpen = true := by
  cases l with
  | recv raw now =>
    simp only [step] at h
    by_cases ho : s.wsOpen = true
    · exact ho
    · rw [if_neg ho] at h
      exact Option.noConfusion h
  | resolve c o =>
    simp only [step] at h
    rw [← resolveStep_wsOpen c o s s2 h]
    exact h2
  | pull c =>
    simp only [step] at h
    rw [← pullStep_wsOpen c s s2 h]
    exact h2
  | close =>
    simp only [step] at h
    by_cases ho : s.wsOpen = true
    · exact ho
    · rw [if_neg ho] at h
      exact Option.noConfusion h

theorem connInv_of_fields (s s2 : ConnState) (hinv : ConnInv s)
    (hnodup : (s2.tasks.map HandlerTask.ctrl).Nodup)
    (hmem : ∀ t2 ∈ s2.tasks, ∃ t1 ∈ s.tasks, t2.ctrl = t1.ctrl)
    (h2 : s2.nextCtrl = s.nextCtrl) (h3 : s2.aborted = s.aborted)
    (h4 : s2.activeCtrl = s.activeCtrl) : ConnInv s2 := by
  constructor
  · exact hnodup
  · intro t ht
    obtain ⟨t1, ht1, hc⟩ := hmem t ht
    rw [h2, hc]
    exact hinv.ctrlsLt t1 ht1
  · intro c hc
    rw [h3] at hc
    rw [h2]
    exact hinv.abortedLt c hc
  · intro c hc
    rw [h4] at hc
    rw [h2]
    exact hinv.activeLt c hc
  · intro t ht hna
    obtain ⟨t1, ht1, hc⟩ := hmem t ht
    rw [h3, hc] at hna
    rw [h4, hc]
    exact hinv.liveActive t1 ht1 hna

theorem connInv_sendJson (s : ConnState) (m : SMsg) (hinv : ConnInv s) :
    ConnInv (sendJson s m) := by
  apply connInv_of_fields s _ hinv
  · rw [sendJson_tasks]
    exact hinv.ctrlsNodup
  · rw [sendJson_tasks]
    exact fun t2 ht2 => ⟨t2, ht2, rfl⟩
  · exact sendJson_nextCtrl s m
  · exact sendJson_aborted s m
  · exact sendJson_activeCtrl s m

theorem connInv_removeTask (s : ConnState) (c : Nat) (hinv : ConnInv s) :
    ConnInv { s with tasks := removeTask c s.tasks } := by
  apply connInv_of_fields s _ hinv
  · show ((removeTask c s.tasks).map HandlerTask.ctrl).Nodup
    exact hinv.ctrlsNodup.sublist ((removeTask_sublist c s.tasks).map _)
  · intro t2 ht2
    exact ⟨t2, mem_removeTask c s.tasks t2 ht2, rfl⟩
  · rfl
  · rfl
  · rfl

theorem connInv_setPhase (s : ConnState) (c : Nat) (p : Phase) (hinv : ConnInv s) :
    ConnInv { s with tasks := setPhase c p s.tasks } := by
  apply connInv_of_fields s _ hinv
  · show ((setPhase c p s.tasks).map HandlerTask.ctrl).Nodup
    rw [setPhase_map_ctrl]
    exact hinv.ctrlsNodup
  · intro t2 ht2
    obtain ⟨t1, ht1, hc, _⟩ := mem_setPhase c p s.tasks t2 ht2
    exact ⟨t1, ht1, hc⟩
  · rfl
  · rfl
  · rfl

theorem connInv_recvAccept (v : JsonValue) (now : String) (s : ConnState)
    (hinv : ConnInv s) (hopen : s.wsOpen = true) (hacc : acceptsMessage v = true) :
    ConnInv (recvStep (some v) now s) := by
  rw [recvStep_accepts v now s hopen hacc]
  constructor
  · show ((s.tasks ++ [HandlerTask.mk (requestIdOf v now) s.nextCtrl
      Phase.awaitingStream]).map HandlerTask.ctrl).Nodup
    rw [List.map_append, List.nodup_append]
    refine ⟨hinv.ctrlsNodup, by simp, ?_⟩
    intro x hx hx2
    simp only [List.map_cons, List.map_nil, List.mem_singleton] at hx2
    obtain ⟨t, ht, rfl⟩ := List.mem_map.mp hx
    have hlt := hinv.ctrlsLt t ht
    omega
  · intro t ht
    rcases List.mem_append.mp ht with hm | hm
    · have := hinv.ctrlsLt t hm
      show t.ctrl < s.nextCtrl + 1
      omega
    · rw [List.mem_singleton] at hm
      subst hm
      show s.nextCtrl < s.nextCtrl + 1
      omega
  · intro c hc
    have := abortActive_lt s hinv c hc
    show c < s.nextCtrl + 1
    omega
  · intro c hc
    injection hc with hc
    show c < s.nextCtrl + 1
    omega
  · intro t ht hna
    rcases List.mem_append.mp ht with hm | hm
    · exact absurd (task_mem_abortActive s hinv t hm) hna
    · rw [List.mem_singleton] at hm
      subst hm
      rfl

theorem connInv_closeStep (s : ConnState) (hinv : ConnInv s) :
    ConnInv (closeStep s) := by
  constructor
  · exact hinv.ctrlsNodup
  · exact hinv.ctrlsLt
  · intro c hc
    exact abortActive_lt s hinv c hc
  · intro c hc
    exact Option.noConfusion hc
  · intro t ht hna
    exact absurd (task_mem_abortActive s hinv t ht) hna

theorem step_connInv (l : Label) (s s2 : ConnState) (hinv : ConnInv s)
    (h : step l s = some s2) : ConnInv s2 := by
  cases l with
  | recv raw now =>
    simp only [step] at h
    by_cases ho : s.wsOpen = true
    · rw [if_pos ho] at h
      injection h with h
      rw [← h]
      cases raw with
      | none =>
        rw [recvStep_reject_parse now s ho]
        exact connInv_of_fields s _ hinv hinv.ctrlsNodup
          (fun t2 ht2 => ⟨t2, ht2, rfl⟩) rfl rfl rfl
      | some v =>
        by_cases hbad : (jsFalsy v || !jsIsObjectType v) = true
        · rw [recvStep_reject_notObject v now s ho hbad]
          exact connInv_of_fields s _ hinv hinv.ctrlsNodup
            (fun t2 ht2 => ⟨t2, ht2, rfl⟩) rfl rfl rfl
        · have hobj : (jsFalsy v || !jsIsObjectType v) = false := by
            simpa using hbad
          by_cases hcont : hasUsableContent (buildRequestMessages v) = true
          · have hsplit : jsFalsy v = false ∧ jsIsObjectType v = true := by
              simpa using hobj
            have hacc : acceptsMessage v = true := by
              simp [acceptsMessage, hsplit.1, hsplit.2, hcont]
            exact connInv_recvAccept v now s hinv ho hacc
          · have hcf : hasUsableContent (buildRequestMessages v) = false := by
              simpa using hcont
            rw [recvStep_reject_content v now s ho hobj hcf]
            exact connInv_of_fields s _ hinv hinv.ctrlsNodup
              (fun t2 ht2 => ⟨t2, ht2, rfl⟩) rfl rfl rfl
    · rw [if_neg ho] at h
      exact Option.noConfusion h
  | resolve c o =>
    simp only [step] at h
    obtain ⟨t, hf, hph, hcase⟩ := resolveStep_cases c o s s2 h
    rcases hcase with ⟨frags, _, he⟩ | ⟨e, _, he⟩
    · rw [he]
      exact connInv_setPhase s c _ hinv
    · rw [he]
      exact connInv_sendJson _ _ (connInv_removeTask s c hinv)
  | pull c =>
    simp only [step] at h
    obtain ⟨t, rem, hf, hph, hcase⟩ := pullStep_cases c s s2 h
    rcases hcase with ⟨_, he⟩ | ⟨_, _, he⟩ | ⟨f, rest, _, _, _, he⟩ |
      ⟨f, rest, _, _, _, he⟩
    · rw [he]
      exact connInv_sendJson _ _ (connInv_removeTask s c hinv)
    · rw [he]
      exact connInv_sendJson _ _ (connInv_removeTask s c hinv)
    · rw [he]
      exact connInv_sendJson _ _ (connInv_removeTask s c hinv)
    · rw [he]
      by_cases hfe : (!(f == "")) = true
      · rw [if_pos hfe]
        apply connInv_of_fields s _ hinv
        · show ((setPhase c (Phase.streaming rest) s.tasks).map HandlerTask.ctrl).Nodup
          rw [setPhase_map_ctrl]
          exact hinv.ctrlsNodup
        · intro t2 ht2
          obtain ⟨t1, ht1, hc, _⟩ := mem_setPhase c _ s.tasks t2 ht2
          exact ⟨t1, ht1, hc⟩
        · show (sendJson s (SMsg.delta t.reqId f)).nextCtrl = s.nextCtrl
          exact sendJson_nextCtrl s _
        · show (sendJson s (SMsg.delta t.reqId f)).aborted = s.aborted
          exact sendJson_aborted s _
        · show (sendJson s (SMsg.delta t.reqId f)).activeCtrl = s.activeCtrl
          exact sendJson_activeCtrl s _
      · rw [if_neg hfe]
        apply connInv_of_fields s _ hinv
        · show ((setPhase c (Phase.streaming rest) s.tasks).map HandlerTask.ctrl).Nodup
          rw [setPhase_map_ctrl]
          exact hinv.ctrlsNodup
        · intro t2 ht2
          obtain ⟨t1, ht1, hc, _⟩ := mem_setPhase c _ s.tasks t2 ht2
          exact ⟨t1, ht1, hc⟩
        · rfl
        · rfl
        · rfl
  | close =>
    simp only [step] at h
    by_cases ho : s.wsOpen = true
    · rw [if_pos ho] at h
      injection h with h
      rw [← h]
      exact connInv_closeStep s hinv
    · rw [if_neg ho] at h
      exact Option.noConfusion h

theorem termCount_singleton (id : String) (m : SMsg) :
    termCount id [m] = if isTerminalFor id m = true then 1 else 0 := by
  unfold termCount
  rw [List.filter_singleton]
  by_cases h : isTerminalFor id m = true
  · rw [if_pos h, h]
    rfl
  · have h2 : isTerminalFor id m = false := by simpa using h
    rw [if_neg h, h2]
    rfl

theorem accounting_remove_emit (id : String) (s : ConnState) (hinv : ConnInv s)
    (hopen : s.wsOpen = true) (c : Nat) (t : HandlerTask)
    (hf : s.tasks.find? (fun x => x.ctrl == c) = some t) (m : SMsg)
    (hterm : isTerminalFor id m = (t.reqId == id)) :
    (sendJson { s with tasks := removeTask c s.tasks } m).trace = s.trace ++ [m] ∧
      termCount id [m] +
        pendingFor id (sendJson { s with tasks := removeTask c s.tasks } m) =
        pendingFor id s := by
  constructor
  · exact sendJson_trace_open _ m hopen
  · have hrm := removeTask_pendingFilter id c t s.tasks hinv.ctrlsNodup hf
    have hpend : pendingFor id (sendJson { s with tasks := removeTask c s.tasks } m) =
        ((removeTask c s.tasks).filter (fun x => x.reqId == id)).length := by
      unfold pendingFor
      rw [sendJson_tasks]
    rw [hpend, termCount_singleton, hterm]
    unfold pendingFor
    by_cases hid : (t.reqId == id) = true
    · rw [if_pos hid] at hrm ⊢
      omega
    · rw [if_neg hid] at hrm ⊢
      omega

theorem step_accounting (id : String) (l : Label) (s s2 : ConnState)
    (hinv : ConnInv s) (h : step l s = some s2) (hopen2 : s2.wsOpen = true)
    (hsp : labelSpawnsId id l = false) :
    ∃ app, s2.trace = s.trace ++ app ∧
      termCount id app + pendingFor id s2 = pendingFor id s := by
  have hopen : s.wsOpen = true := step_wsOpen l s s2 h hopen2
  cases l with
  | recv raw now =>
    simp only [step] at h
    rw [if_pos hopen] at h
    injection h with h
    subst h
    cases raw with
    | none =>
      rw [recvStep_reject_parse now s hopen]
      refine ⟨[SMsg.error none jsonObjectErrText], rfl, ?_⟩
      simp [termCount, List.filter, isTerminalFor, pendingFor]
    | some v =>
      simp only [labelSpawnsId] at hsp
      by_cases hbad : (jsFalsy v || !jsIsObjectType v) = true
      · rw [recvStep_reject_notObject v now s hopen hbad]
        refine ⟨[SMsg.error none jsonObjectErrText], rfl, ?_⟩
        simp [termCount, List.filter, isTerminalFor, pendingFor]
      · have hobj : (jsFalsy v || !jsIsObjectType v) = false := by
          simpa using hbad
        by_cases hcont : hasUsableContent (buildRequestMessages v) = true
        · have hsplit : jsFalsy v = false ∧ jsIsObjectType v = true := by
            simpa using hobj
          have hacc : acceptsMessage v = true := by
            simp [acceptsMessage, hsplit.1, hsplit.2, hcont]
          rw [recvStep_accepts v now s hopen hacc]
          refine ⟨[SMsg.start (requestIdOf v now)], rfl, ?_⟩
          have htc : termCount id [SMsg.start (requestIdOf v now)] = 0 := by
            simp [termCount, List.filter, isTerminalFor]
          rw [htc]
          unfold pendingFor
          simp only [List.filter_append]
          rw [List.filter_singleton]
          have hne : ((HandlerTask.mk (requestIdOf v now) s.nextCtrl
              Phase.awaitingStream).reqId == id) = false := hsp
          rw [hne]
          simp
        · have hcf : hasUsableContent (buildRequestMessages v) = false := by
            simpa using hcont
          rw [recvStep_reject_content v now s hopen hobj hcf]
          refine ⟨[SMsg.error (some (requestIdOf v now)) missingParamErrText], rfl, ?_⟩
          have htc : termCount id
              [SMsg.error (some (requestIdOf v now)) missingParamErrText] = 0 := by
            rw [termCount_singleton]
            have : isTerminalFor id
                (SMsg.error (some (requestIdOf v now)) missingParamErrText) = false := hsp
            rw [this]
            simp
          rw [htc]
          simp [pendingFor]
  | resolve c o =>
    simp only [step] at h
    obtain ⟨t, hf, hph, hcase⟩ := resolveStep_cases c o s s2 h
    rcases hcase with ⟨frags, _, he⟩ | ⟨e, _, he⟩
    · refine ⟨[], by rw [he]; simp, ?_⟩
      have hpend : pendingFor id s2 = pendingFor id s := by
        rw [he]
        unfold pendingFor
        exact setPhase_pendingFilter id c _ s.tasks
      rw [hpend]
      simp [termCount]
    · have hacct := accounting_remove_emit id s hinv hopen c t hf
        (SMsg.error (some t.reqId) e) (by simp [isTerminalFor])
      rw [he]
      exact ⟨[SMsg.error (some t.reqId) e], hacct.1, hacct.2⟩
  | pull c =>
    simp only [step] at h
    obtain ⟨t, rem, hf, hph, hcase⟩ := pullStep_cases c s s2 h
    rcases hcase with ⟨_, he⟩ | ⟨_, _, he⟩ | ⟨f, rest, _, _, hws, he⟩ |
      ⟨f, rest, _, _, _, he⟩
    · have hacct := accounting_remove_emit id s hinv hopen c t hf
        (SMsg.error (some t.reqId) abortErrText) (by simp [isTerminalFor])
      rw [he]
      exact ⟨[SMsg.error (some t.reqId) abortErrText], hacct.1, hacct.2⟩
    · have hacct := accounting_remove_emit id s hinv hopen c t hf
        (SMsg.endMsg t.reqId) (by simp [isTerminalFor])
      rw [he]
      exact ⟨[SMsg.endMsg t.reqId], hacct.1, hacct.2⟩
    · rw [hws] at hopen
      exact Bool.noConfusion hopen
    · have hpend : pendingFor id s2 = pendingFor id s := by
        rw [he]
        unfold pendingFor
        by_cases hfe : (!(f == "")) = true
        · rw [if_pos hfe]
          exact setPhase_pendingFilter id c _ s.tasks
        · rw [if_neg hfe]
          exact setPhase_pendingFilter id c _ s.tasks
      by_cases hfe : (!(f == "")) = true
      · refine ⟨[SMsg.delta t.reqId f], ?_, ?_⟩
        · rw [he, if_pos hfe]
          show (sendJson s (SMsg.delta t.reqId f)).trace = s.trace ++ [SMsg.delta t.reqId f]
          exact sendJson_trace_open s _ hopen
        · rw [hpend]
          simp [termCount, List.filter, isTerminalFor]
      · refine ⟨[], ?_, ?_⟩
        · rw [he, if_neg hfe]
          simp
        · rw [hpend]
          simp [termCount]
  | close =>
    simp only [step] at h
    rw [if_pos hopen] at h
    injection h with h
    rw [← h] at hopen2
    simp [closeStep] at hopen2

theorem quarantined_of_fields (id : String) (s s2 : ConnState)
    (hq : Quarantined id s)
    (hmem : ∀ t2 ∈ s2.tasks, ∃ t1 ∈ s.tasks, t2.ctrl = t1.ctrl ∧ t2.reqId = t1.reqId)
    (hab : ∀ c ∈ s.aborted, c ∈ s2.aborted) : Quarantined id s2 := by
  intro t2 ht2 hid
  obtain ⟨t1, ht1, hc, hr⟩ := hmem t2 ht2
  rw [hc]
  exact hab _ (hq t1 ht1 (by rw [← hr]; exact hid))

theorem step_quarantine (id : String) (l : Label) (s s2 : ConnState)
    (hinv : ConnInv s) (hq : Quarantined id s) (h : step l s = some s2)
    (hopen2 : s2.wsOpen = true) (hsp : labelSpawnsId id l = false) :
    Quarantined id s2 ∧
      ∃ app, s2.trace = s.trace ++ app ∧
        termCount id app + pendingFor id s2 = pendingFor id s ∧
        (∀ m ∈ app, isDeltaFor id m = false ∧ isEndFor id m = false) := by
  have hopen : s.wsOpen = true := step_wsOpen l s s2 h hopen2
  cases l with
  | recv raw now =>
    simp only [step] at h
    rw [if_pos hopen] at h
    injection h with h
    subst h
    cases raw with
    | none =>
      rw [recvStep_reject_parse now s hopen]
      refine ⟨hq, [SMsg.error none jsonObjectErrText], rfl, ?_, ?_⟩
      · simp [termCount, List.filter, isTerminalFor, pendingFor]
      · intro m hm
        rw [List.mem_singleton] at hm
        subst hm
        exact ⟨rfl, rfl⟩
    | some v =>
      simp only [labelSpawnsId] at hsp
      by_cases hbad : (jsFalsy v || !jsIsObjectType v) = true
      · rw [recvStep_reject_notObject v now s hopen hbad]
        refine ⟨hq, [SMsg.error none jsonObjectErrText], rfl, ?_, ?_⟩
        · simp [termCount, List.filter, isTerminalFor, pendingFor]
        · intro m hm
          rw [List.mem_singleton] at hm
          subst hm
          exact ⟨rfl, rfl⟩
      · have hobj : (jsFalsy v || !jsIsObjectType v) = false := by
          simpa using hbad
        by_cases hcont : hasUsableContent (buildRequestMessages v) = true
        · have hsplit : jsFalsy v = false ∧ jsIsObjectType v = true := by
            simpa using hobj
          have hacc : acceptsMessage v = true := by
            simp [acceptsMessage, hsplit.1, hsplit.2, hcont]
          rw [recvStep_accepts v now s hopen hacc]
          refine ⟨?_, [SMsg.start (requestIdOf v now)], rfl, ?_, ?_⟩
          · intro t2 ht2 hid
            rcases List.mem_append.mp ht2 with hm | hm
            · exact aborted_subset_abortActive s _ (hq t2 hm hid)
            · rw [List.mem_singleton] at hm
              subst hm
              exfalso
              have : (requestIdOf v now == id) = true := by
                simp only [beq_iff_eq]
                exact hid
              rw [hsp] at this
              exact Bool.noConfusion this
          · have htc : termCount id [SMsg.start (requestIdOf v now)] = 0 := by
              simp [termCount, List.filter, isTerminalFor]
            rw [htc]
            unfold pendingFor
            simp only [List.filter_append]
            rw [List.filter_singleton]
            have hne : ((HandlerTask.mk (requestIdOf v now) s.nextCtrl
                Phase.awaitingStream).reqId == id) = false := hsp
            rw [hne]
            simp
          · intro m hm
            rw [List.mem_singleton] at hm
            subst hm
            exact ⟨rfl, rfl⟩
        · have hcf : hasUsableContent (buildRequestMessages v) = false := by
            simpa using hcont
          rw [recvStep_reject_content v now s hopen hobj hcf]
          refine ⟨hq, [SMsg.error (some (requestIdOf v now)) missingParamErrText],
            rfl, ?_, ?_⟩
          · have htc : termCount id
                [SMsg.error (some (requestIdOf v now)) missingParamErrText] = 0 := by
              rw [termCount_singleton]
              have : isTerminalFor id
                  (SMsg.error (some (requestIdOf v now)) missingParamErrText) =
                    false := hsp
              rw [this]
              simp
            rw [htc]
            simp [pendingFor]
          · intro m hm
            rw [List.mem_singleton] at hm
            subst hm
            exact ⟨rfl, rfl⟩
  | resolve c o =>
    simp only [step] at h
    obtain ⟨t, hf, hph, hcase⟩ := resolveStep_cases c o s s2 h
    rcases hcase with ⟨frags, _, he⟩ | ⟨e, _, he⟩
    · subst he
      refine ⟨?_, [], by simp, ?_, by intro m hm; cases hm⟩
      · apply quarantined_of_fields id s _ hq
        · intro t2 ht2
          obtain ⟨t1, ht1, hc, hr⟩ := mem_setPhase c _ s.tasks t2 ht2
          exact ⟨t1, ht1, hc, hr⟩
        · intro a ha
          exact ha
      · have hpend : pendingFor id
            { s with tasks := setPhase c (Phase.streaming frags) s.tasks } =
            pendingFor id s := by
          unfold pendingFor
          exact setPhase_pendingFilter id c _ s.tasks
        rw [hpend]
        simp [termCount]
    · subst he
      have hacct := accounting_remove_emit id s hinv hopen c t hf
        (SMsg.error (some t.reqId) e) (by simp [isTerminalFor])
      refine ⟨?_, [SMsg.error (some t.reqId) e], hacct.1, hacct.2, ?_⟩
      · apply quarantined_of_fields id s _ hq
        · rw [sendJson_tasks]
          intro t2 ht2
          exact ⟨t2, mem_removeTask c s.tasks t2 ht2, rfl, rfl⟩
        · rw [sendJson_aborted]
          intro a ha
          exact ha
      · intro m hm
        rw [List.mem_singleton] at hm
        subst hm
        exact ⟨rfl, rfl⟩
  | pull c =>
    simp only [step] at h
    obtain ⟨t, rem, hf, hph, hcase⟩ := pullStep_cases c s s2 h
    have htmem : t ∈ s.tasks := List.mem_of_find?_eq_some hf
    have htc := @List.find?_some HandlerTask (fun x => x.ctrl == c) t s.tasks hf
    have htcc : t.ctrl = c := by simpa using htc
    rcases hcase with ⟨_, he⟩ | ⟨hab, _, he⟩ | ⟨f, rest, _, _, hws, he⟩ |
      ⟨f, rest, hab, _, _, he⟩
    · subst he
      have hacct := accounting_remove_emit id s hinv hopen c t hf
        (SMsg.error (some t.reqId) abortErrText) (by simp [isTerminalFor])
      refine ⟨?_, [SMsg.error (some t.reqId) abortErrText], hacct.1, hacct.2, ?_⟩
      · apply quarantined_of_fields id s _ hq
        · rw [sendJson_tasks]
          intro t2 ht2
          exact ⟨t2, mem_removeTask c s.tasks t2 ht2, rfl, rfl⟩
        · rw [sendJson_aborted]
          intro a ha
          exact ha
      · intro m hm
        rw [List.mem_singleton] at hm
        subst hm
        exact ⟨rfl, rfl⟩
    · have hne : (t.reqId == id) = false := by
        by_cases hidq : t.reqId = id
        · exfalso
          have hmemab : c ∈ s.aborted := by
            rw [← htcc]
            exact hq t htmem hidq
          have : s.aborted.contains c = true :=
            List.elem_eq_true_of_mem hmemab
          rw [hab] at this
          exact Bool.noConfusion this
        · simpa using hidq
      subst he
      have hacct := accounting_remove_emit id s hinv hopen c t hf
        (SMsg.endMsg t.reqId) (by simp [isTerminalFor])
      refine ⟨?_, [SMsg.endMsg t.reqId], hacct.1, hacct.2, ?_⟩
      · apply quarantined_of_fields id s _ hq
        · rw [sendJson_tasks]
          intro t2 ht2
          exact ⟨t2, mem_removeTask c s.tasks t2 ht2, rfl, rfl⟩
        · rw [sendJson_aborted]
          intro a ha
          exact ha
      · intro m hm
        rw [List.mem_singleton] at hm
        subst hm
        refine ⟨rfl, ?_⟩
        show isEndFor id (SMsg.endMsg t.reqId) = false
        simpa [isEndFor] using hne
    · rw [hws] at hopen
      exact Bool.noConfusion hopen
    · have hne : (t.reqId == id) = false := by
        by_cases hidq : t.reqId = id
        · exfalso
          have hmemab : c ∈ s.aborted := by
            rw [← htcc]
            exact hq t htmem hidq
          have : s.aborted.contains c = true :=
            List.elem_eq_true_of_mem hmemab
          rw [hab] at this
          exact Bool.noConfusion this
        · simpa using hidq
      have hqq : Quarantined id s2 := by
        rw [he]
        apply quarantined_of_fields id s _ hq
        · intro t2 ht2
          have ht2p : t2 ∈ setPhase c (Phase.streaming rest) s.tasks := by
            by_cases hfe : (!(f == "")) = true
            · simpa [hfe, sendJson_tasks] using ht2
            · simpa [hfe] using ht2
          obtain ⟨t1, ht1, hc, hr⟩ := mem_setPhase c _ s.tasks t2 ht2p
          exact ⟨t1, ht1, hc, hr⟩
        · intro a ha
          by_cases hfe : (!(f == "")) = true
          · simpa [hfe, sendJson_aborted] using ha
          · simpa [hfe] using ha
      have hpend : pendingFor id s2 = pendingFor id s := by
        rw [he]
        unfold pendingFor
        by_cases hfe : (!(f == "")) = true
        · rw [if_pos hfe]
          exact setPhase_pendingFilter id c _ s.tasks
        · rw [if_neg hfe]
          exact setPhase_pendingFilter id c _ s.tasks
      by_cases hfe : (!(f == "")) = true
      · refine ⟨hqq, [SMsg.delta t.reqId f], ?_, ?_, ?_⟩
        · rw [he, if_pos hfe]
          show (sendJson s (SMsg.delta t.reqId f)).trace =
            s.trace ++ [SMsg.delta t.reqId f]
          exact sendJson_trace_open s _ hopen
        · rw [hpend]
          simp [termCount, List.filter, isTerminalFor]
        · intro m hm
          rw [List.mem_singleton] at hm
          subst hm
          refine ⟨?_, rfl⟩
          show isDeltaFor id (SMsg.delta t.reqId f) = false
          simpa [isDeltaFor] using hne
      · refine ⟨hqq, [], ?_, ?_, by intro m hm; cases hm⟩
        · rw [he, if_neg hfe]
          simp
        · rw [hpend]
          simp [termCount]
  | close =>
    simp only [step] at h
    rw [if_pos hopen] at h
    injection h with h
    rw [← h] at hopen2
    simp [closeStep] at hopen2

theorem run_wsOpen (ls : List Label) : ∀ s s2 : ConnState, run ls s = some s2 →
    s2.wsOpen = true → s.wsOpen = true := by
  induction ls with
  | nil =>
    intro s s2 h h2
    injection h with h
    rw [h]
    exact h2
  | cons l ls ih =>
    intro s s2 h h2
    simp only [run] at h
    cases hstep : step l s with
    | none =>
      simp only [hstep] at h
      exact Option.noConfusion h
    | some s1 =>
      simp only [hstep] at h
      exact step_wsOpen l s s1 hstep (ih s1 s2 h h2)

theorem run_connInv (ls : List Label) : ∀ s s2 : ConnState, ConnInv s →
    run ls s = some s2 → ConnInv s2 := by
  induction ls with
  | nil =>
    intro s s2 hinv h
    injection h with h
    rw [← h]
    exact hinv
  | cons l ls ih =>
    intro s s2 hinv h
    simp only [run] at h
    cases hstep : step l s with
    | none =>
      simp only [hstep] at h
      exact Option.noConfusion h
    | some s1 =>
      simp only [hstep] at h
      exact ih s1 s2 (step_connInv l s s1 hinv hstep) h

theorem run_accounting (id : String) (ls : List Label) :
    ∀ s s2 : ConnState, ConnInv s → run ls s = some s2 →
    (∀ l ∈ ls, labelSpawnsId id l = false) → s2.wsOpen = true →
    ∃ app, s2.trace = s.trace ++ app ∧
      termCount id app + pendingFor id s2 = pendingFor id s := by
  induction ls with
  | nil =>
    intro s s2 hinv h hsp h2
    injection h with h
    subst h
    exact ⟨[], by simp, by simp [termCount]⟩
  | cons l ls ih =>
    intro s s2 hinv h hsp h2
    simp only [run] at h
    cases hstep : step l s with
    | none =>
      simp only [hstep] at h
      exact Option.noConfusion h
    | some s1 =>
      simp only [hstep] at h
      have h1open : s1.wsOpen = true := run_wsOpen ls s1 s2 h h2
      obtain ⟨app1, htr1, hacc1⟩ := step_accounting id l s s1 hinv hstep h1open
        (hsp l (List.mem_cons_self l ls))
      obtain ⟨app2, htr2, hacc2⟩ := ih s1 s2 (step_connInv l s s1 hinv hstep) h
        (fun x hx => hsp x (List.mem_cons_of_mem l hx)) h2
      refine ⟨app1 ++ app2, ?_, ?_⟩
      · rw [htr2, htr1, List.append_assoc]
      · rw [termCount_append]
        omega

theorem run_quarantine (id : String) (ls : List Label) :
    ∀ s s2 : ConnState, ConnInv s → Quarantined id s → run ls s = some s2 →
    (∀ l ∈ ls, labelSpawnsId id l = false) → s2.wsOpen = true →
    Quarantined id s2 ∧
      ∃ app, s2.trace = s.trace ++ app ∧
        termCount id app + pendingFor id s2 = pendingFor id s ∧
        (∀ m ∈ app, isDeltaFor id m = false ∧ isEndFor id m = false) := by
  induction ls with
  | nil =>
    intro s s2 hinv hq h hsp h2
    injection h with h
    subst h
    exact ⟨hq, [], by simp, by simp [termCount], by intro m hm; cases hm⟩
  | cons l ls ih =>
    intro s s2 hinv hq h hsp h2
    simp only [run] at h
    cases hstep : step l s with
    | none =>
      simp only [hstep] at h
      exact Option.noConfusion h
    | some s1 =>
      simp only [hstep] at h
      have h1open : s1.wsOpen = true := run_wsOpen ls s1 s2 h h2
      obtain ⟨hq1, app1, htr1, hacc1, hclean1⟩ := step_quarantine id l s s1 hinv
        hq hstep h1open (hsp l (List.mem_cons_self l ls))
      obtain ⟨hq2, app2, htr2, hacc2, hclean2⟩ := ih s1 s2
        (step_connInv l s s1 hinv hstep) hq1 h
        (fun x hx => hsp x (List.mem_cons_of_mem l hx)) h2
      refine ⟨hq2, app1 ++ app2, ?_, ?_, ?_⟩
      · rw [htr2, htr1, List.append_assoc]
      · rw [termCount_append]
        omega
      · intro m hm
        rcases List.mem_append.mp hm with hm | hm
        · exact hclean1 m hm
        · exact hclean2 m hm

theorem connInv_initState : ConnInv initState := by
  constructor
  · simp [initState]
  · intro t ht
    simp [initState] at ht
  · intro c hc
    simp [initState] at hc
  · intro c hc
    simp [initState] at hc
  · intro t ht
    simp [initState] at ht

theorem reachable_connInv (s : ConnState) (hr : Reachable s) : ConnInv s := by
  obtain ⟨ls, h⟩ := hr
  exact run_connInv ls initState s connInv_initState h

theorem filter_length_le_one (ts : List HandlerTask)
    (hnd : (ts.map HandlerTask.ctrl).Nodup) (p : HandlerTask → Bool)
    (huniq : ∀ t1 t2, t1 ∈ ts → t2 ∈ ts → p t1 = true → p t2 = true → t1 = t2) :
    (ts.filter p).length ≤ 1 := by
  cases hfl : ts.filter p with
  | nil => simp
  | cons a l =>
    cases l with
    | nil => simp
    | cons b l2 =>
      exfalso
      have hnda : (ts.filter p).Nodup := (List.Nodup.of_map _ hnd).filter p
      rw [hfl] at hnda
      have hab : a ≠ b := by
        have hh := List.nodup_cons.mp hnda
        exact fun he => hh.1 (by rw [he]; exact List.mem_cons_self b l2)
      have ha : a ∈ ts.filter p := by
        rw [hfl]
        exact List.mem_cons_self _ _
      have hb : b ∈ ts.filter p := by
        rw [hfl]
        exact List.mem_cons_of_mem _ (List.mem_cons_self _ _)
      exact hab (huniq a b (List.mem_of_mem_filter ha) (List.mem_of_mem_filter hb)
        (List.of_mem_filter ha) (List.of_mem_filter hb))

/-- C4 counterexample: the claim's first formulation — at no instant do two
requestIds on the same connection both have unterminated state (start
delivered, no end or error delivered) — is false.  Concrete run: accept
r1, let its upstream stream resolve, then accept r2.  In the reached state
both r1 and r2 have had start delivered and neither has any terminal
message: r1's cancelled handler only emits its error reply at its next
pull, which has not happened yet. -/
theorem C4_two_unterminated_counterexample :
    run [Label.recv (some (JsonValue.obj [("id", JsonValue.str "r1"),
            ("input", JsonValue.str "hello")])) "100",
         Label.resolve 0 (Except.ok ["hi"]),
         Label.recv (some (JsonValue.obj [("id", JsonValue.str "r2"),
            ("input", JsonValue.str "world")])) "200"] initState =
      some (ConnState.mk true (some 1) 2 [0]
        [HandlerTask.mk "r1" 0 (Phase.streaming ["hi"]),
         HandlerTask.mk "r2" 1 Phase.awaitingStream]
        [SMsg.ready, SMsg.start "r1", SMsg.start "r2"]) ∧
    unterminated [SMsg.ready, SMsg.start "r1", SMsg.start "r2"] "r1" = true ∧
    unterminated [SMsg.ready, SMsg.start "r1", SMsg.start "r2"] "r2" = true ∧
    "r1" ≠ "r2" := by
  decide

/-- C4 (amended): the second formulation holds: a connection has at most
one non-cancelled, non-completed request at any instant — any two in-flight
handlers whose controllers are both unaborted are the same handler. -/
theorem C4_at_most_one_active (s : ConnState) (hr : Reachable s)
    (t1 t2 : HandlerTask) (h1 : t1 ∈ s.tasks) (h2 : t2 ∈ s.tasks)
    (hn1 : t1.ctrl ∉ s.aborted) (hn2 : t2.ctrl ∉ s.aborted) : t1 = t2 := by
  have hinv := reachable_connInv s hr
  have ha1 := hinv.liveActive t1 h1 hn1
  have ha2 := hinv.liveActive t2 h2 hn2
  rw [ha1] at ha2
  injection ha2 with ha2
  exact nodup_ctrl_inj s.tasks hinv.ctrlsNodup t1 t2 h1 h2 ha2

/-- C4 witness: the at-most-one-active theorem applied in a concrete
reachable state with one in-flight request. -/
theorem C4_at_most_one_active_witness :
    Reachable (ConnState.mk true (some 0) 1 []
        [HandlerTask.mk "r1" 0 Phase.awaitingStream]
        [SMsg.ready, SMsg.start "r1"]) ∧
    HandlerTask.mk "r1" 0 Phase.awaitingStream ∈
      (ConnState.mk true (some 0) 1 []
        [HandlerTask.mk "r1" 0 Phase.awaitingStream]
        [SMsg.ready, SMsg.start "r1"]).tasks ∧
    (HandlerTask.mk "r1" 0 Phase.awaitingStream).ctrl ∉
      (ConnState.mk true (some 0) 1 []
        [HandlerTask.mk "r1" 0 Phase.awaitingStream]
        [SMsg.ready, SMsg.start "r1"]).aborted ∧
    HandlerTask.mk "r1" 0 Phase.awaitingStream =
      HandlerTask.mk "r1" 0 Phase.awaitingStream :=
  ⟨⟨[Label.recv (some (JsonValue.obj [("id", JsonValue.str "r1"),
      ("input", JsonValue.str "hello")])) "100"], by decide⟩,
   by decide, by decide,
   C4_at_most_one_active
     (ConnState.mk true (some 0) 1 []
        [HandlerTask.mk "r1" 0 Phase.awaitingStream]
        [SMsg.ready, SMsg.start "r1"])
     ⟨[Label.recv (some (JsonValue.obj [("id", JsonValue.str "r1"),
        ("input", JsonValue.str "hello")])) "100"], by decide⟩
     (HandlerTask.mk "r1" 0 Phase.awaitingStream)
     (HandlerTask.mk "r1" 0 Phase.awaitingStream)
     (by decide) (by decide) (by decide) (by decide)⟩

/-- C5 counterexample: the claim fails when the connection closes
mid-generation.  Concrete run: accept request rA, resolve its stream with
two fragments, close the socket, then let the handler pull once: the
aborted stream rejects, the catch block runs, but sendJson suppresses the
error because the socket is closed.  The handler is gone (no in-flight
task remains) and the delivered trace contains start(rA) but no terminal
message for rA at all — an accepted request with neither end nor error. -/
theorem C5_close_suppresses_terminal_counterexample :
    run [Label.recv (some (JsonValue.obj [("id", JsonValue.str "rA"),
            ("input", JsonValue.str "hello")])) "7",
         Label.resolve 0 (Except.ok ["x", "y"]),
         Label.close, Label.pull 0] initState =
      some (ConnState.mk false none 1 [0] [] [SMsg.ready, SMsg.start "rA"]) ∧
    (ConnState.mk false none 1 [0] [] [SMsg.ready, SMsg.start "rA"]).trace.contains
      (SMsg.start "rA") = true ∧
    (ConnState.mk false none 1 [0] [] [SMsg.ready, SMsg.start "rA"]).tasks = [] ∧
    termCount "rA"
      (ConnState.mk false none 1 [0] [] [SMsg.ready, SMsg.start "rA"]).trace = 0 := by
  decide

/-- C5 (amended): as long as the connection stays open, every accepted
request produces exactly one terminal message — if a request with a fresh
id is accepted and its handler has completed by the end of a run that
neither reuses the id nor closes the socket, exactly one terminal message
(an end or an error) for that id was delivered after its start. -/
theorem C5_exactly_one_terminal (s : ConnState) (hr : Reachable s)
    (hopen : s.wsOpen = true) (v : JsonValue) (now : String)
    (hacc : acceptsMessage v = true)
    (hfresh : pendingFor (requestIdOf v now) s = 0)
    (ls : List Label)
    (hsp : ∀ l ∈ ls, labelSpawnsId (requestIdOf v now) l = false)
    (s2 : ConnState) (hrun : run ls (recvStep (some v) now s) = some s2)
    (hopen2 : s2.wsOpen = true)
    (hdone : pendingFor (requestIdOf v now) s2 = 0) :
    ∃ app, s2.trace = s.trace ++ [SMsg.start (requestIdOf v now)] ++ app ∧
      termCount (requestIdOf v now) app = 1 := by
  have hinv := reachable_connInv s hr
  have hstep : step (Label.recv (some v) now) s = some (recvStep (some v) now s) := by
    simp only [step]
    rw [if_pos hopen]
  have hinv1 : ConnInv (recvStep (some v) now s) :=
    step_connInv _ s _ hinv hstep
  have hchar := recvStep_accepts v now s hopen hacc
  have htr1 : (recvStep (some v) now s).trace =
      s.trace ++ [SMsg.start (requestIdOf v now)] := by
    rw [hchar]
  have hp1 : pendingFor (requestIdOf v now) (recvStep (some v) now s) = 1 := by
    rw [hchar]
    unfold pendingFor at hfresh ⊢
    simp only [List.filter_append, List.length_append]
    rw [List.filter_singleton]
    have hself : ((HandlerTask.mk (requestIdOf v now) s.nextCtrl
        Phase.awaitingStream).reqId == requestIdOf v now) = true := by
      simp
    rw [hself]
    simp only [cond_true, List.length_singleton]
    omega
  obtain ⟨app, htr2, hacct⟩ :=
    run_accounting (requestIdOf v now) ls _ s2 hinv1 hrun hsp hopen2
  rw [hdone, hp1] at hacct
  refine ⟨app, ?_, by omega⟩
  rw [htr2, htr1]

/-- C1: cancellation supersession.  Let `s` be a reachable open-socket
state in which every pending handler for request id `r1` owns the active
controller (this covers both an in-flight `r1` and an `r1` whose stream
was already exhausted, in which case no handler remains), and let a new
valid client message arrive whose request id differs from `r1`.  Then (i)
in the state produced by that message event, the previously active
controller has been aborted, a fresh controller is installed, and the only
message delivered by the event is `start` of the new id — so the abort is
visible before / with `start(r2)` and certainly before any later event;
and (ii) along any continuation that does not reuse `r1` and leaves the
socket open, the trace after `start(r2)` contains no `delta` and no `end`
for `r1`, and the number of terminal messages for `r1` in it — all of them
errors, by (ii) — equals the number of `r1` handlers pending at
supersession time (at most one) minus those still pending: exactly one
error once the cancelled handler completes, and none if `r1` had already
exhausted. -/
theorem C1_cancellation_supersession (s : ConnState) (hr : Reachable s)
    (hopen : s.wsOpen = true) (r1 : String)
    (hq : ∀ t ∈ s.tasks, t.reqId = r1 → s.activeCtrl = some t.ctrl)
    (v : JsonValue) (now : String) (hacc : acceptsMessage v = true)
    (hne : requestIdOf v now ≠ r1)
    (ls : List Label) (hsp : ∀ l ∈ ls, labelSpawnsId r1 l = false)
    (s2 : ConnState) (hrun : run ls (recvStep (some v) now s) = some s2)
    (hopen2 : s2.wsOpen = true) :
    ((∀ c, s.activeCtrl = some c → c ∈ (recvStep (some v) now s).aborted) ∧
      (recvStep (some v) now s).activeCtrl = some s.nextCtrl ∧
      (recvStep (some v) now s).trace =
        s.trace ++ [SMsg.start (requestIdOf v now)]) ∧
    pendingFor r1 s ≤ 1 ∧
    ∃ app, s2.trace = s.trace ++ [SMsg.start (requestIdOf v now)] ++ app ∧
      (∀ m ∈ app, isDeltaFor r1 m = false ∧ isEndFor r1 m = false) ∧
      termCount r1 app + pendingFor r1 s2 = pendingFor r1 s := by
  have hinv := reachable_connInv s hr
  have hchar := recvStep_accepts v now s hopen hacc
  have hstep : step (Label.recv (some v) now) s = some (recvStep (some v) now s) := by
    simp only [step]
    rw [if_pos hopen]
  have hinv1 : ConnInv (recvStep (some v) now s) :=
    step_connInv _ s _ hinv hstep
  have hpart1 : ∀ c, s.activeCtrl = some c →
      c ∈ (recvStep (some v) now s).aborted := by
    intro c hc
    rw [hchar]
    show c ∈ abortActive s
    unfold abortActive
    rw [hc]
    exact List.mem_cons_self _ _
  have hq1 : Quarantined r1 (recvStep (some v) now s) := by
    rw [hchar]
    intro t ht hid
    rcases List.mem_append.mp ht with hm | hm
    · show t.ctrl ∈ abortActive s
      have hact := hq t hm hid
      unfold abortActive
      rw [hact]
      exact List.mem_cons_self _ _
    · rw [List.mem_singleton] at hm
      subst hm
      exact absurd hid hne
  have hple : pendingFor r1 s ≤ 1 := by
    unfold pendingFor
    apply filter_length_le_one s.tasks hinv.ctrlsNodup
    intro t1 t2 h1 h2 hp1 hp2
    have e1 : t1.reqId = r1 := by simpa using hp1
    have e2 : t2.reqId = r1 := by simpa using hp2
    have a1 := hq t1 h1 e1
    have a2 := hq t2 h2 e2
    rw [a1] at a2
    injection a2 with a2
    exact nodup_ctrl_inj s.tasks hinv.ctrlsNodup t1 t2 h1 h2 a2
  have hps1 : pendingFor r1 (recvStep (some v) now s) = pendingFor r1 s := by
    rw [hchar]
    unfold pendingFor
    simp only [List.filter_append, List.length_append]
    rw [List.filter_singleton]
    have hself : ((HandlerTask.mk (requestIdOf v now) s.nextCtrl
        Phase.awaitingStream).reqId == r1) = false := by
      simpa using hne
    rw [hself]
    simp
  obtain ⟨hq2, app, htr, hacct, hclean⟩ :=
    run_quarantine r1 ls _ s2 hinv1 hq1 hrun hsp hopen2
  refine ⟨⟨hpart1, by rw [hchar], by rw [hchar]⟩, hple, app, ?_, hclean, ?_⟩
  · rw [htr, hchar]
  · rw [← hps1]
    exact hacct

/-- C6: a client message that fails to parse as a JSON object (JSON.parse
throw, falsy value, or non-object typeof), or that yields no usable
content after buildRequestMessages, is answered by exactly one `error`
reply and has no other observable effect: the resulting state differs from
the previous one only by that single appended error message — the active
cancellation handle, the aborted set, the in-flight handlers, the
controller counter and the open socket are all untouched, so the
connection is ready for the next message as before. -/
theorem C6_invalid_message_single_error (s : ConnState) (hopen : s.wsOpen = true)
    (raw : Option JsonValue) (now : String)
    (hbad : raw = none ∨ ∃ v, raw = some v ∧ (jsFalsy v = true ∨
      jsIsObjectType v = false ∨
      hasUsableContent (buildRequestMessages v) = false)) :
    ∃ oid emsg, step (Label.recv raw now) s =
      some { s with trace := s.trace ++ [SMsg.error oid emsg] } := by
  have hstep : step (Label.recv raw now) s = some (recvStep raw now s) := by
    simp only [step]
    rw [if_pos hopen]
  rcases hbad with rfl | ⟨v, rfl, hcase⟩
  · exact ⟨none, jsonObjectErrText,
      by rw [hstep, recvStep_reject_parse now s hopen]⟩
  · by_cases hbad2 : (jsFalsy v || !jsIsObjectType v) = true
    · exact ⟨none, jsonObjectErrText,
        by rw [hstep, recvStep_reject_notObject v now s hopen hbad2]⟩
    · have hobj : (jsFalsy v || !jsIsObjectType v) = false := by
        simpa using hbad2
      have hsplit : jsFalsy v = false ∧ jsIsObjectType v = true := by
        simpa using hobj
      have hcf : hasUsableContent (buildRequestMessages v) = false := by
        rcases hcase with h | h | h
        · rw [hsplit.1] at h
          exact Bool.noConfusion h
        · rw [hsplit.2] at h
          exact Bool.noConfusion h
        · exact h
      exact ⟨some (requestIdOf v now), missingParamErrText,
        by rw [hstep, recvStep_reject_content v now s hopen hobj hcf]⟩

/-- C6 witness: the handler's reaction to `{"messages": []}` in the initial
state — a single error reply and an otherwise unchanged state. -/
theorem C6_invalid_message_single_error_witness :
    initState.wsOpen = true ∧
    (some (JsonValue.obj [("messages", JsonValue.arr [])]) = none ∨
      ∃ v, some (JsonValue.obj [("messages", JsonValue.arr [])]) = some v ∧
        (jsFalsy v = true ∨ jsIsObjectType v = false ∨
          hasUsableContent (buildRequestMessages v) = false)) ∧
    (∃ oid emsg, step (Label.recv
        (some (JsonValue.obj [("messages", JsonValue.arr [])])) "9") initState =
      some { initState with trace := initState.trace ++ [SMsg.error oid emsg] }) :=
  ⟨rfl,
   Or.inr ⟨JsonValue.obj [("messages", JsonValue.arr [])], rfl,
     Or.inr (Or.inr (by decide))⟩,
   C6_invalid_message_single_error initState rfl
     (some (JsonValue.obj [("messages", JsonValue.arr [])])) "9"
     (Or.inr ⟨JsonValue.obj [("messages", JsonValue.arr [])], rfl,
       Or.inr (Or.inr (by decide))⟩)⟩

/-- C10: the content validation inspects only the head of the built
message list.  For a client message whose messages array begins with a
valid-role entry, acceptance is exactly non-blankness of that first
entry's content, independent of every later entry: blank first content is
rejected even when later entries are non-empty, and non-blank first
content is accepted whatever the remaining entries hold. -/
theorem C10_first_entry_validation (r c : String)
    (hr : (r == "system" || r == "user" || r == "assistant") = true)
    (rest : List JsonValue) :
    acceptsMessage (JsonValue.obj [("messages", JsonValue.arr
        (JsonValue.obj [("role", JsonValue.str r), ("content", JsonValue.str c)]
          :: rest))]) = !(jsTrim c == "") := by
  have he0 : clientEntry (JsonValue.obj [("role", JsonValue.str r),
      ("content", JsonValue.str c)]) = some (ChatEntry.mk r c) := by
    show (if (r == "system" || r == "user" || r == "assistant") = true
        then some (ChatEntry.mk r c) else none) = some (ChatEntry.mk r c)
    rw [if_pos hr]
  have hget : getField (JsonValue.obj [("messages", JsonValue.arr
      (JsonValue.obj [("role", JsonValue.str r), ("content", JsonValue.str c)]
        :: rest))]) "messages" = some (JsonValue.arr
      (JsonValue.obj [("role", JsonValue.str r), ("content", JsonValue.str c)]
        :: rest)) := rfl
  have hbuild : buildRequestMessages (JsonValue.obj [("messages", JsonValue.arr
      (JsonValue.obj [("role", JsonValue.str r), ("content", JsonValue.str c)]
        :: rest))]) =
      (JsonValue.obj [("role", JsonValue.str r), ("content", JsonValue.str c)]
        :: rest).filterMap clientEntry := by
    simp only [buildRequestMessages, hget]
    rw [if_pos (by simp)]
  have hfm : (JsonValue.obj [("role", JsonValue.str r),
        ("content", JsonValue.str c)] :: rest).filterMap clientEntry =
      ChatEntry.mk r c :: rest.filterMap clientEntry := by
    simp only [List.filterMap_cons, he0]
  show (!jsFalsy (JsonValue.obj [("messages", JsonValue.arr
      (JsonValue.obj [("role", JsonValue.str r), ("content", JsonValue.str c)]
        :: rest))]) &&
    jsIsObjectType (JsonValue.obj [("messages", JsonValue.arr
      (JsonValue.obj [("role", JsonValue.str r), ("content", JsonValue.str c)]
        :: rest))]) &&
    hasUsableContent (buildRequestMessages (JsonValue.obj [("messages",
      JsonValue.arr (JsonValue.obj [("role", JsonValue.str r),
        ("content", JsonValue.str c)] :: rest))]))) = !(jsTrim c == "")
  rw [hbuild, hfm]
  show (!(false : Bool) && true && !(jsTrim c == "")) = !(jsTrim c == "")
  simp

/-- C10 witness: a whitespace-only first entry is rejected even though the
second entry has non-empty content. -/
theorem C10_first_entry_validation_witness :
    (("user" == "system" || "user" == "user" || "user" == "assistant") = true) ∧
    acceptsMessage (JsonValue.obj [("messages", JsonValue.arr
        (JsonValue.obj [("role", JsonValue.str "user"),
            ("content", JsonValue.str "  ")] ::
          [JsonValue.obj [("role", JsonValue.str "user"),
            ("content", JsonValue.str "hello")]]))]) = !(jsTrim "  " == "") :=
  ⟨by decide,
   C10_first_entry_validation "user" "  " (by decide)
     [JsonValue.obj [("role", JsonValue.str "user"),
       ("content", JsonValue.str "hello")]]⟩

/-- C5 witness: a concrete open-connection run — accept rA, stream one
fragment, exhaust — delivering exactly one terminal (the end) for rA. -/
theorem C5_exactly_one_terminal_witness :
    Reachable initState ∧
    initState.wsOpen = true ∧
    acceptsMessage (JsonValue.obj [("id", JsonValue.str "rA"),
      ("input", JsonValue.str "hello")]) = true ∧
    pendingFor (requestIdOf (JsonValue.obj [("id", JsonValue.str "rA"),
      ("input", JsonValue.str "hello")]) "7") initState = 0 ∧
    (∀ l ∈ [Label.resolve 0 (Except.ok ["x"]), Label.pull 0, Label.pull 0],
      labelSpawnsId (requestIdOf (JsonValue.obj [("id", JsonValue.str "rA"),
        ("input", JsonValue.str "hello")]) "7") l = false) ∧
    run [Label.resolve 0 (Except.ok ["x"]), Label.pull 0, Label.pull 0]
      (recvStep (some (JsonValue.obj [("id", JsonValue.str "rA"),
        ("input", JsonValue.str "hello")])) "7" initState) =
      some (ConnState.mk true (some 0) 1 [] []
        [SMsg.ready, SMsg.start "rA", SMsg.delta "rA" "x", SMsg.endMsg "rA"]) ∧
    (ConnState.mk true (some 0) 1 [] []
      [SMsg.ready, SMsg.start "rA", SMsg.delta "rA" "x",
        SMsg.endMsg "rA"]).wsOpen = true ∧
    pendingFor (requestIdOf (JsonValue.obj [("id", JsonValue.str "rA"),
      ("input", JsonValue.str "hello")]) "7")
      (ConnState.mk true (some 0) 1 [] []
        [SMsg.ready, SMsg.start "rA", SMsg.delta "rA" "x",
          SMsg.endMsg "rA"]) = 0 ∧
    (∃ app, (ConnState.mk true (some 0) 1 [] []
        [SMsg.ready, SMsg.start "rA", SMsg.delta "rA" "x",
          SMsg.endMsg "rA"]).trace =
        initState.trace ++ [SMsg.start (requestIdOf (JsonValue.obj
          [("id", JsonValue.str "rA"),
            ("input", JsonValue.str "hello")]) "7")] ++ app ∧
      termCount (requestIdOf (JsonValue.obj [("id", JsonValue.str "rA"),
        ("input", JsonValue.str "hello")]) "7") app = 1) :=
  ⟨⟨[], rfl⟩, rfl, by decide, by decide, by decide, by decide, rfl, by decide,
   C5_exactly_one_terminal initState ⟨[], rfl⟩ rfl
     (JsonValue.obj [("id", JsonValue.str "rA"),
       ("input", JsonValue.str "hello")]) "7" (by decide) (by decide)
     [Label.resolve 0 (Except.ok ["x"]), Label.pull 0, Label.pull 0]
     (by decide)
     (ConnState.mk true (some 0) 1 [] []
       [SMsg.ready, SMsg.start "rA", SMsg.delta "rA" "x", SMsg.endMsg "rA"])
     (by decide) rfl (by decide)⟩

/-- C1 witness: a concrete supersession — r1 streaming, r2 arrives, r1's
next pull surfaces the abort as the single error terminal for r1. -/
theorem C1_cancellation_supersession_witness :
    Reachable (ConnState.mk true (some 0) 1 []
      [HandlerTask.mk "r1" 0 (Phase.streaming ["A"])]
      [SMsg.ready, SMsg.start "r1"]) ∧
    (ConnState.mk true (some 0) 1 []
      [HandlerTask.mk "r1" 0 (Phase.streaming ["A"])]
      [SMsg.ready, SMsg.start "r1"]).wsOpen = true ∧
    (∀ t ∈ (ConnState.mk true (some 0) 1 []
        [HandlerTask.mk "r1" 0 (Phase.streaming ["A"])]
        [SMsg.ready, SMsg.start "r1"]).tasks, t.reqId = "r1" →
      (ConnState.mk true (some 0) 1 []
        [HandlerTask.mk "r1" 0 (Phase.streaming ["A"])]
        [SMsg.ready, SMsg.start "r1"]).activeCtrl = some t.ctrl) ∧
    acceptsMessage (JsonValue.obj [("id", JsonValue.str "r2"),
      ("input", JsonValue.str "world")]) = true ∧
    requestIdOf (JsonValue.obj [("id", JsonValue.str "r2"),
      ("input", JsonValue.str "world")]) "200" ≠ "r1" ∧
    (∀ l ∈ [Label.pull 0], labelSpawnsId "r1" l = false) ∧
    run [Label.pull 0]
      (recvStep (some (JsonValue.obj [("id", JsonValue.str "r2"),
        ("input", JsonValue.str "world")])) "200"
        (ConnState.mk true (some 0) 1 []
          [HandlerTask.mk "r1" 0 (Phase.streaming ["A"])]
          [SMsg.ready, SMsg.start "r1"])) =
      some (ConnState.mk true (some 1) 2 [0]
        [HandlerTask.mk "r2" 1 Phase.awaitingStream]
        [SMsg.ready, SMsg.start "r1", SMsg.start "r2",
         SMsg.error (some "r1") abortErrText]) ∧
    (((∀ c, (ConnState.mk true (some 0) 1 []
          [HandlerTask.mk "r1" 0 (Phase.streaming ["A"])]
          [SMsg.ready, SMsg.start "r1"]).activeCtrl = some c →
        c ∈ (recvStep (some (JsonValue.obj [("id", JsonValue.str "r2"),
          ("input", JsonValue.str "world")])) "200"
          (ConnState.mk true (some 0) 1 []
            [HandlerTask.mk "r1" 0 (Phase.streaming ["A"])]
            [SMsg.ready, SMsg.start "r1"])).aborted) ∧
      (recvStep (some (JsonValue.obj [("id", JsonValue.str "r2"),
          ("input", JsonValue.str "world")])) "200"
        (ConnState.mk true (some 0) 1 []
          [HandlerTask.mk "r1" 0 (Phase.streaming ["A"])]
          [SMsg.ready, SMsg.start "r1"])).activeCtrl =
        some (ConnState.mk true (some 0) 1 []
          [HandlerTask.mk "r1" 0 (Phase.streaming ["A"])]
          [SMsg.ready, SMsg.start "r1"]).nextCtrl ∧
      (recvStep (some (JsonValue.obj [("id", JsonValue.str "r2"),
          ("input", JsonValue.str "world")])) "200"
        (ConnState.mk true (some 0) 1 []
          [HandlerTask.mk "r1" 0 (Phase.streaming ["A"])]
          [SMsg.ready, SMsg.start "r1"])).trace =
        (ConnState.mk true (some 0) 1 []
          [HandlerTask.mk "r1" 0 (Phase.streaming ["A"])]
          [SMsg.ready, SMsg.start "r1"]).trace ++
          [SMsg.start (requestIdOf (JsonValue.obj [("id", JsonValue.str "r2"),
            ("input", JsonValue.str "world")]) "200")]) ∧
    pendingFor "r1" (ConnState.mk true (some 0) 1 []
      [HandlerTask.mk "r1" 0 (Phase.streaming ["A"])]
      [SMsg.ready, SMsg.start "r1"]) ≤ 1 ∧
    ∃ app, (ConnState.mk true (some 1) 2 [0]
        [HandlerTask.mk "r2" 1 Phase.awaitingStream]
        [SMsg.ready, SMsg.start "r1", SMsg.start "r2",
         SMsg.error (some "r1") abortErrText]).trace =
        (ConnState.mk true (some 0) 1 []
          [HandlerTask.mk "r1" 0 (Phase.streaming ["A"])]
          [SMsg.ready, SMsg.start "r1"]).trace ++
          [SMsg.start (requestIdOf (JsonValue.obj [("id", JsonValue.str "r2"),
            ("input", JsonValue.str "world")]) "200")] ++ app ∧
      (∀ m ∈ app, isDeltaFor "r1" m = false ∧ isEndFor "r1" m = false) ∧
      termCount "r1" app +
        pendingFor "r1" (ConnState.mk true (some 1) 2 [0]
          [HandlerTask.mk "r2" 1 Phase.awaitingStream]
          [SMsg.ready, SMsg.start "r1", SMsg.start "r2",
           SMsg.error (some "r1") abortErrText]) =
        pendingFor "r1" (ConnState.mk true (some 0) 1 []
          [HandlerTask.mk "r1" 0 (Phase.streaming ["A"])]
          [SMsg.ready, SMsg.start "r1"])) :=
  ⟨⟨[Label.recv (some (JsonValue.obj [("id", JsonValue.str "r1"),
        ("input", JsonValue.str "hello")])) "100",
      Label.resolve 0 (Except.ok ["A"])], by decide⟩,
   rfl, by decide, by decide, by decide, by decide, by decide,
   C1_cancellation_supersession
     (ConnState.mk true (some 0) 1 []
       [HandlerTask.mk "r1" 0 (Phase.streaming ["A"])]
       [SMsg.ready, SMsg.start "r1"])
     ⟨[Label.recv (some (JsonValue.obj [("id", JsonValue.str "r1"),
          ("input", JsonValue.str "hello")])) "100",
        Label.resolve 0 (Except.ok ["A"])], by decide⟩
     rfl "r1" (by decide)
     (JsonValue.obj [("id", JsonValue.str "r2"),
       ("input", JsonValue.str "world")]) "200" (by decide) (by decide)
     [Label.pull 0] (by decide)
     (ConnState.mk true (some 1) 2 [0]
       [HandlerTask.mk "r2" 1 Phase.awaitingStream]
       [SMsg.ready, SMsg.start "r1", SMsg.start "r2",
        SMsg.error (some "r1") abortErrText])
     (by decide) rfl⟩
